import Mathlib

/-!
# Gallery: ingestion loop, photo download and query handlers of `main.go`

A shallow embedding of `src/main.go` and proofs about it.

* Go strings are Lean strings.  The program only compares strings for equality and cuts
  them at the one-byte separator `/`.
* A call that can end the process (`log.Fatalf`, a run-time panic) returns `Except Abort _`.
* What the program does to the outside world (requests to the portfolio API, goroutines it
  starts) is recorded as a list of `Event`s.
* The services the program talks to (the portfolio API, the HTTP client, the file system, the
  JSON binder of the web framework) are parameters of the functions that use them.
* The database library is not part of the repository: the store is modelled from the
  specification, and every definition of that model says so.
* What is written to the log and to standard output is left out.
-/

namespace Gallery

set_option linter.dupNamespace false

/-! ## Ways a call can end the process -/

/-- The two ways in which a call ends the whole process instead of returning. -/
inductive Abort where
  /-- A `log.Fatalf`: the message is logged and the process exits with status 1. -/
  | fatal (msg : String)
  /-- A run-time panic (index out of range, failed type assertion, explicit call). -/
  | panic (msg : String)
  deriving DecidableEq, Repr

/-! ## `getFilename` (main.go 203-209) -/

/-- Loop of `strings.Split(s, sep)` for a one-character separator: `cur` holds, in reverse,
the characters read since the last separator.  Every separator closes a piece, and the end of
the input closes the last one, so the result has one more piece than `s` has separators. -/
def splitLoop (sep : Char) : List Char → List Char → List (List Char)
  | [], cur => [cur.reverse]
  | c :: cs, cur =>
    if c = sep then cur.reverse :: splitLoop sep cs []
    else splitLoop sep cs (c :: cur)

/-- The call `strings.Split(s, "/")` of the Go standard library, for a separator `sep` of one
character: the substrings of `s` between the separators, in order. -/
def Split (s : String) (sep : Char) : List String :=
  (splitLoop sep s.data []).map String.mk

/-- Source `getFilename` (main.go 203-209):
`url := strings.Split(src, "/")`, a `log.Fatalf` when `len(url) < 1`, else `url[len(url)-1]`. -/
def getFilename (src : String) : Except Abort String :=
  let url := Split src '/'
  if url.length < 1 then
    .error (.fatal ("invalid url " ++ src))
  else
    match url[url.length - 1]? with
    | some name => .ok name
    | none => .error (.panic "index out of range")

/-! ## Data model (main.go 22-63) -/

/-- Source `Query` (main.go 23-28): one query object of `POST /q`; a field left out of the
JSON object is the empty string. -/
structure Query where
  Title : String
  Description : String
  Filename : String
  Src : String
  deriving DecidableEq, Repr

/-- Source `Queries` (main.go 22). -/
abbrev Queries := List Query

/-- Source `Creative` (main.go 34-37). -/
structure Creative where
  ID : Int
  Username : String
  deriving DecidableEq, Repr

/-- Source `CreativesSlice` (main.go 30-32). -/
structure CreativesSlice where
  Creatives : List Creative
  deriving DecidableEq, Repr

/-- Source `UserProject` (main.go 43-45). -/
structure UserProject where
  ID : Int
  deriving DecidableEq, Repr

/-- Source `UserProjectsSlice` (main.go 39-41). -/
structure UserProjectsSlice where
  Projects : List UserProject
  deriving DecidableEq, Repr

/-- A value of type `interface{}` as the JSON decoder leaves it in a map: a Go string, or a
value of any other dynamic type (bool, float64, slice, map, nil). -/
inductive Dyn where
  | str (s : String)
  | other
  deriving DecidableEq, Repr

/-- Source `ProjectParsed` (main.go 51-55); the map `Src` is a list of key-value pairs read
with `List.lookup`, the nil map being the empty list. -/
structure ProjectParsed where
  Title : String
  Description : String
  Src : List (String × Dyn)
  deriving DecidableEq, Repr

/-- Source `Project` (main.go 47-49). -/
structure Project where
  Project : ProjectParsed
  deriving DecidableEq, Repr

/-- Source `Data` (main.go 57-63): the stored record.  `ID` carries the tag
`storm:"id,increment"`. -/
structure Data where
  ID : Int
  Title : String
  Description : String
  Filename : String
  Src : String
  deriving DecidableEq, Repr

/-- The zero value of `Data`: what `var resp Data` holds. -/
def Data.zero : Data := ⟨0, "", "", "", ""⟩

/-! ## The record store

The database library behind `db` is not part of the repository; its three operations used by
the program are modelled from section 4.3 of the specification (insert-with-auto-id, full-table
scan, first-match equality query over a conjunction of field predicates). -/

/-- Modelled from the spec: the record store (the embedded database behind `db`, which is not
under src/).  `records` is the single table in store order; `seq` is the last id handed out by
the auto-increment sequence, 0 when none was. -/
structure DB where
  records : List Data
  seq : Int
  deriving DecidableEq, Repr

/-- Modelled from the spec: the store of a fresh database file, before any record is saved. -/
def DB.empty : DB := ⟨[], 0⟩

/-- Modelled from the spec: a keyed write (section 1, last write wins), for a record that comes
with an id of its own: it replaces the record stored under that id, or is added at its place in
ascending id order.  No call of this program takes this path. -/
def DB.put (d : Data) : List Data → List Data
  | [] => [d]
  | r :: rs =>
    if r.ID = d.ID then d :: rs
    else if d.ID < r.ID then d :: r :: rs
    else r :: DB.put d rs

/-- Modelled from the spec: `db.Save(&data)`, the insert-with-auto-id of the store, which is not
under src/.  A record whose `ID` is zero (the only kind the program builds, main.go 161-166)
gets the next value of the sequence and is added after the stored ones; nothing stored is
changed.  A record that comes with an id goes through the keyed write `DB.put`. -/
def DB.Save (db : DB) (d : Data) : DB :=
  if d.ID = 0 then
    let id := db.seq + 1
    { records := db.records ++ [{ d with ID := id }], seq := id }
  else
    { records := DB.put d db.records, seq := db.seq }

/-- Modelled from the spec: `db.All(&response)`, the full-table scan: every stored record, in
store order. -/
def DB.All (db : DB) : List Data := db.records

/-- Modelled from the spec: an equality predicate `q.Eq(field, value)` on one field of a
record. -/
structure Matcher where
  field : String
  value : String
  deriving DecidableEq, Repr

/-- Modelled from the spec: `q.Eq(field, value)`. -/
def q.Eq (field value : String) : Matcher := ⟨field, value⟩

/-- Modelled from the spec: the field of a record that an equality predicate names (the four
string fields, by their Go names). -/
def Data.field (r : Data) (name : String) : Option String :=
  if name = "Title" then some r.Title
  else if name = "Description" then some r.Description
  else if name = "Filename" then some r.Filename
  else if name = "Src" then some r.Src
  else none

/-- Modelled from the spec: whether a record satisfies an equality predicate. -/
def Matcher.Match (m : Matcher) (r : Data) : Bool :=
  decide (r.field m.field = some m.value)

/-- Modelled from the spec: `db.Select(query...).First(&resp)`, the first-match query: the first
record in store order that satisfies every predicate of `query` is copied into `resp`; when
there is none, `resp` is left as it was. -/
def DB.SelectFirst (db : DB) (query : List Matcher) (resp : Data) : Data :=
  match db.records.find? (fun r => query.all (fun m => m.Match r)) with
  | some r => r
  | none => resp

/-! ## The HTTP handlers (main.go 93-137) -/

/-- The value handed to `c.JSON`: a list of records, or a JSON object of string fields
(`gin.H`). -/
inductive Payload where
  | records (rs : List Data)
  | object (fields : List (String × String))
  deriving DecidableEq, Repr

/-- A call of `c.JSON(status, payload)`. -/
structure Reply where
  status : Nat
  payload : Payload
  deriving DecidableEq, Repr

/-- `http.StatusOK`. -/
def StatusOK : Nat := 200

/-- `http.StatusBadRequest`. -/
def StatusBadRequest : Nat := 400

/-- A call the handlers make on the store. -/
inductive StoreCall where
  | all
  | selectFirst (query : List Matcher)
  deriving DecidableEq, Repr

/-- What one run of a handler did: the reply it sent, the store calls it made in order, the
content it left in `./results.json` (`none`: file untouched; `some none`: created and left
empty) and the panic it ended with, if any. -/
structure Served where
  reply : Reply
  calls : List StoreCall
  results : Option (Option (List Data))
  abort : Option Abort
  deriving DecidableEq, Repr

/-- The file system as `queryFull` meets it: whether `os.Create("./results.json")` succeeds and
whether the following `jsonFile.Write` does. -/
structure ResultsFile where
  create : Bool
  write : Bool
  deriving DecidableEq, Repr

/-- Source `queryFull` (main.go 93-106): the reply is sent before the results file is
touched; a failing `os.Create` panics, a failing `Write` is ignored. -/
def queryFull (db : DB) (fs : ResultsFile) : Served :=
  let response := db.All
  let reply : Reply := ⟨StatusOK, .records response⟩
  if ¬ fs.create then
    ⟨reply, [.all], none, some (.panic "os.Create ./results.json")⟩
  else if fs.write then
    ⟨reply, [.all], some (some response), none⟩
  else
    ⟨reply, [.all], some none, none⟩

/-- The matcher list built for one query object (main.go 118-131): one `q.Eq` per non-empty
field, in the order Title, Description, Filename, Src. -/
def buildQuery (u_query : Query) : List Matcher :=
  let query : List Matcher := []
  let query := if u_query.Title ≠ "" then query ++ [q.Eq "Title" u_query.Title] else query
  let query :=
    if u_query.Description ≠ "" then query ++ [q.Eq "Description" u_query.Description] else query
  let query := if u_query.Filename ≠ "" then query ++ [q.Eq "Filename" u_query.Filename] else query
  let query := if u_query.Src ≠ "" then query ++ [q.Eq "Src" u_query.Src] else query
  query

/-- One turn of the loop of `queryJSON` (main.go 117-135) for index `i` and query `u_query`:
a fresh zero `resp`, the first-match query, and `details[i] = resp`. -/
def queryStep (db : DB) (acc : List Data × List StoreCall) (iq : Nat × Query) :
    List Data × List StoreCall :=
  let query := buildQuery iq.2
  let resp := db.SelectFirst query Data.zero
  (acc.1.set iq.1 resp, acc.2 ++ [.selectFirst query])

/-- The fixed message of the 400 reply (main.go 112). -/
def parseErrorMessage : String := "Error occurred when parsing your JSON query ! X( "

/-- Source `queryJSON` (main.go 108-137).  `BindJSON` is the binder of the web framework: it
gives the queries a request body decodes to, or `none` when the body does not bind. -/
def queryJSON (BindJSON : String → Option Queries) (db : DB) (body : String) : Served :=
  match BindJSON body with
  | none => ⟨⟨StatusBadRequest, .object [("message", parseErrorMessage)]⟩, [], none, none⟩
  | some u_queries =>
    let details := List.replicate u_queries.length Data.zero
    let out := u_queries.enum.foldl (queryStep db) (details, [])
    ⟨⟨StatusOK, .records out.1⟩, out.2, none, none⟩

/-! ## Statements in the words of the specification -/

/-- In the words of the specification: a record satisfies a query object when it agrees with
every non-empty field of the query. -/
def Satisfies (u_query : Query) (r : Data) : Prop :=
  (u_query.Title ≠ "" → r.Title = u_query.Title) ∧
  (u_query.Description ≠ "" → r.Description = u_query.Description) ∧
  (u_query.Filename ≠ "" → r.Filename = u_query.Filename) ∧
  (u_query.Src ≠ "" → r.Src = u_query.Src)

/-- In the words of the specification: `d` is the answer to a query object over the table
`records`: the first record, in store order, that satisfies it, or the zero-valued record when
no stored record does. -/
def FirstMatch (records : List Data) (u_query : Query) (d : Data) : Prop :=
  (∃ before after, records = before ++ d :: after ∧ Satisfies u_query d ∧
      ∀ r ∈ before, ¬ Satisfies u_query r) ∨
  ((∀ r ∈ records, ¬ Satisfies u_query r) ∧ d = Data.zero)

/-- The store invariant: the sequence has not gone below zero, ids ascend strictly in store
order and every id lies between 1 and the last value of the sequence. -/
def DB.Valid (db : DB) : Prop :=
  0 ≤ db.seq ∧ db.records.Pairwise (fun a b => a.ID < b.ID) ∧
    ∀ r ∈ db.records, 1 ≤ r.ID ∧ r.ID ≤ db.seq

/-! ## Sample inputs -/

/-- A sample binder: it accepts the two bodies `[{"title":"X"}]` and `[{}]` and rejects every
other body. -/
def sampleBind (body : String) : Option Queries :=
  if body = "[\x7b\"title\":\"X\"\x7d]" then some [⟨"X", "", "", ""⟩]
  else if body = "[\x7b\x7d]" then some [⟨"", "", "", ""⟩]
  else none

/-- A sample store of three records; the second and the third are titled `X`. -/
def sampleDB : DB :=
  ⟨[⟨1, "A", "first", "a.png", "https://host/a.png"⟩,
    ⟨2, "X", "second", "x.png", "https://host/x.png"⟩,
    ⟨3, "X", "third", "y.png", "https://host/y.png"⟩], 3⟩

/-- The records `ds` with the ids `start`, `start + 1`, ... written into them, in order. -/
def stamp (start : Int) : List Data → List Data
  | [] => []
  | d :: ds => { d with ID := start } :: stamp (start + 1) ds

/-- A record as the ingestion loop builds it (main.go 161-166): `ID` is left at zero. -/
def sampleRecord : Data := ⟨0, "Poster", "A poster", "p.png", "https://host/img/p.png"⟩

/-! ## The ingestion loop (main.go 139-173) -/

/-- The three URLs that `fetchData` requests: `.../v2/creativestofollow`,
`.../v2/users/<username>/projects` and `.../v2/projects/<id>`. -/
inductive Endpoint where
  | creativesToFollow
  | userProjects (username : String)
  | project (id : Int)
  deriving DecidableEq, Repr

/-- The URL `url_page` built by `fetch` (main.go 141): the endpoint with its `page` and
`client_id` parameters. -/
structure Request where
  url : Endpoint
  page : Int
  client_id : String
  deriving DecidableEq, Repr

/-- A response body, seen through what `json.NewDecoder(body).Decode(dest)` does with it: for
each type of `dest` used by the program, the content of `dest` after the call as a function of
its content before.  A body that does not decode leaves `dest` as it was; a body
that carries a field overwrites it; a field absent from the body keeps its old content. -/
structure Body where
  creatives : CreativesSlice → CreativesSlice
  projects : UserProjectsSlice → UserProjectsSlice
  project : Project → Project

/-- The outcome of `http.Get(url_page)`: an error, or a response with its body. -/
inductive Response where
  | failed (err : String)
  | body (b : Body)

/-- The portfolio API as one run meets it: the outcome of the `n`-th request of the run
(counted from 0), given the request. -/
abbrev Upstream := Nat → Request → Response

/-- The types that `fetch` receives as `dest`, with the effect of decoding a body into them. -/
class Dest (α : Type) where
  Decode : Body → α → α

instance : Dest CreativesSlice := ⟨Body.creatives⟩

instance : Dest UserProjectsSlice := ⟨Body.projects⟩

instance : Dest Project := ⟨Body.project⟩

/-- What the ingestion loop does to the outside world, in program order: a request to the API
(`ok` is false when `http.Get` returned an error), and the goroutines started by
`go fetchPhotos(data.Src)` and `go db.Save(&data)`. -/
inductive Event where
  | get (req : Request) (ok : Bool)
  | goFetchPhotos (src : String)
  | goSave (data : Data)
  deriving DecidableEq, Repr

/-- The requests made so far and the events so far. -/
structure Net where
  calls : Nat
  trace : List Event
  deriving DecidableEq, Repr

/-- Source `fetch` (closure of `fetchData`, main.go 140-150): the returned error, the content
of `dest` after the call, and the record of the request.  On an error of `http.Get` the closure
returns before it touches `dest`; otherwise the body is decoded into `dest`, the error of
`Decode` is dropped and nil is returned. -/
def fetch {α : Type} [Dest α] (apiKey : String) (api : Upstream) (url : Endpoint) (page : Int)
    (dest : α) (net : Net) : Option String × α × Net :=
  let url_page : Request := ⟨url, page, apiKey⟩
  match api net.calls url_page with
  | .failed err => (some err, dest, ⟨net.calls + 1, net.trace ++ [.get url_page false]⟩)
  | .body b => (none, Dest.Decode b dest, ⟨net.calls + 1, net.trace ++ [.get url_page true]⟩)

/-- The variables of `fetchData` that live across the turns of its loops (main.go 152-154),
with the record of the outside world. -/
structure Vars where
  urList : CreativesSlice
  projList : UserProjectsSlice
  rsc : Project
  net : Net
  deriving DecidableEq, Repr

/-- The end of a run that did not return: its cause and the events up to it. -/
structure Crash where
  cause : Abort
  trace : List Event
  deriving DecidableEq, Repr

/-- The type assertion `x.(string)` on the result of a map lookup: a panic unless the key is
present with a string value. -/
def assertString : Option Dyn → Except Abort String
  | some (.str s) => .ok s
  | _ => .error (.panic "interface conversion: not a string")

/-- The record literal of the inner loop (main.go 161-166), in the order in which Go evaluates
its fields: Title, Description, the type assertion and the call of `getFilename` for Filename,
and the type assertion for Src.  `ID` is left at its zero value. -/
def buildData (rsc : Project) : Except Abort Data :=
  match assertString (rsc.Project.Src.lookup "original") with
  | .error cause => .error cause
  | .ok original =>
    match getFilename original with
    | .error cause => .error cause
    | .ok filename =>
      match assertString (rsc.Project.Src.lookup "original") with
      | .error cause => .error cause
      | .ok src => .ok ⟨0, rsc.Project.Title, rsc.Project.Description, filename, src⟩

/-- Body of the inner loop of `fetchData` for one creator (main.go 158-170): the two fetches
(their errors dropped), the index `projList.Projects[0]`, the record literal, and the two
goroutines. -/
def forCreative (apiKey : String) (api : Upstream) (st : Vars) (creative : Creative) :
    Except Crash Vars :=
  let (_, projList, net) := fetch apiKey api (.userProjects creative.Username) 1 st.projList st.net
  match projList.Projects[0]? with
  | none => .error ⟨.panic "index out of range [0] with length 0", net.trace⟩
  | some first =>
    let (_, rsc, net) := fetch apiKey api (.project first.ID) 1 st.rsc net
    match buildData rsc with
    | .error cause => .error ⟨cause, net.trace⟩
    | .ok data =>
      .ok ⟨st.urList, projList, rsc,
        ⟨net.calls, net.trace ++ [.goFetchPhotos data.Src, .goSave data]⟩⟩

/-- Body of the outer loop of `fetchData` for the index `i` (main.go 156-171): the fetch of
page `1 + i` of the creator list, then the inner loop over the creators now in `urList`. -/
def forPage (apiKey : String) (api : Upstream) (st : Vars) (i : Nat) : Except Crash Vars :=
  let (_, urList, net) := fetch apiKey api .creativesToFollow (1 + (i : Int)) st.urList st.net
  urList.Creatives.foldlM (forCreative apiKey api) ⟨urList, st.projList, st.rsc, net⟩

/-- The variables at the start of `fetchData`: zero values, nothing requested yet. -/
def Vars.start : Vars := ⟨⟨[]⟩, ⟨[]⟩, ⟨⟨"", "", []⟩⟩, ⟨0, []⟩⟩

/-- Source `fetchData` (main.go 139-173): ten turns of the outer loop, `i` from 0 to 9.  The
result is the state at the normal return, or the crash that ended the run. -/
def fetchData (apiKey : String) (api : Upstream) : Except Crash Vars :=
  (List.range 10).foldlM (forPage apiKey api) Vars.start

/-- The events of a run, whether it returned or not. -/
def eventsOf : Except Crash Vars → List Event
  | .ok st => st.net.trace
  | .error crash => crash.trace

/-- The record of the last `go db.Save` among the events, if there is one. -/
def lastSave (t : List Event) : Option Data :=
  t.foldl (fun last e =>
    match e with
    | .goSave d => some d
    | _ => last) none

/-! ## The photo download (main.go 175-201) -/

/-- The bytes of a file or of a response body. -/
abbrev Bytes := List Nat

/-- The outcome of `client.Get(src)`: an error, or a response whose body `ioutil.ReadAll`
reads in full or fails to read. -/
inductive GetResult where
  | failed (err : String)
  | response (body : Except String Bytes)

/-- The world as `fetchPhotos` meets it: the HTTP client and the two file-system calls, each
with the error it returns (`none` for success). -/
structure PhotoEnv where
  Get : String → GetResult
  MkdirAll : String → Option String
  WriteFile : String → Bytes → Option String

/-- The call `filepath.Join(dir, fname)` for a `dir` that is `.` or one directory name and a
name `fname` without separator: the cleaned path. -/
def Join (dir fname : String) : String :=
  if fname = "" ∨ fname = "." then dir
  else if fname = ".." then (if dir = "." then ".." else ".")
  else if dir = "." then fname
  else dir ++ "/" ++ fname

/-- Source `fetchPhotos` (main.go 175-201): the error returned to the caller (`none` for nil)
and the file written, if one was.  The errors of `os.MkdirAll` and of `ioutil.WriteFile` are not
looked at. -/
def fetchPhotos (env : PhotoEnv) (src : String) :
    Except Abort (Option String × Option (String × Bytes)) :=
  match env.Get src with
  | .failed err => .ok (some err, none)
  | .response body =>
    match body with
    | .error err => .ok (some err, none)
    | .ok bt =>
      let dir := Join "." "photos"
      let _ := env.MkdirAll dir
      match getFilename src with
      | .error cause => .error cause
      | .ok fname =>
        match env.WriteFile (Join dir fname) bt with
        | some _ => .ok (none, none)
        | none => .ok (none, some (Join dir fname, bt))

/-- A body that carries the creator list `cs` and nothing for the other two types. -/
def creatorsBody (cs : List Creative) : Body := ⟨fun _ => ⟨cs⟩, id, id⟩

/-- A body that carries the project list `ps` and nothing for the other two types. -/
def projectsBody (ps : List UserProject) : Body := ⟨id, fun _ => ⟨ps⟩, id⟩

/-- A body that carries a project detail with a string `covers.original`. -/
def detailBody (name description original : String) : Body :=
  ⟨id, id, fun _ => ⟨⟨name, description, [("original", .str original)]⟩⟩⟩

/-- A sample upstream: every page of the creator list names the creator `alice`, and every
other request fails with an HTTP error. -/
def listOnlyUpstream : Upstream := fun _ req =>
  match req.url with
  | .creativesToFollow => .body (creatorsBody [⟨7, "alice"⟩])
  | _ => .failed "connection refused"

/-- A sample upstream: as `listOnlyUpstream`, and the project lists are served too (one project,
number 11), but every project detail fails with an HTTP error. -/
def noDetailUpstream : Upstream := fun _ req =>
  match req.url with
  | .creativesToFollow => .body (creatorsBody [⟨7, "alice"⟩])
  | .userProjects _ => .body (projectsBody [⟨11⟩])
  | .project _ => .failed "connection refused"

/-- A sample world for `fetchPhotos`: every URL is served the three bytes 1, 2, 3, and a write
fails on the path `photos`, which is the directory itself. -/
def sampleEnv : PhotoEnv :=
  { Get := fun _ => .response (.ok [1, 2, 3])
    MkdirAll := fun _ => none
    WriteFile := fun path _ =>
      if path = "photos" then some "open photos: is a directory" else none }

/-- In the words of the specification: in the events `t`, every project-detail request that
fails with an HTTP error after some record was saved is followed at once by the download of that
record's source and by the save of that same record. -/
def ReusesLast (t : List Event) : Prop :=
  ∀ (t₀ : List Event) (id page : Int) (key : String) (post : List Event) (d₁ : Data),
    t = t₀ ++ [.get ⟨.project id, page, key⟩ false] ++ post →
    lastSave t₀ = some d₁ →
    ∃ rest, post = [.goFetchPhotos d₁.Src, .goSave d₁] ++ rest

/-- The invariant of the loops of `fetchData`: the events so far obey `ReusesLast`, and the
record of the last save is the one that the record literal gives for the current `rsc`. -/
def Vars.Inv (st : Vars) : Prop :=
  ReusesLast st.net.trace ∧ ∀ d, lastSave st.net.trace = some d → buildData st.rsc = .ok d

/-- The invariant for the result of a part of the run. -/
def Good : Except Crash Vars → Prop
  | .ok st => st.Inv
  | .error crash => ReusesLast crash.trace

/-- A sample upstream: page 1 of the creator list names `alice` and `bob`, the other pages
name nobody; `alice` has project 11, whose detail is served; `bob` has project 12, whose detail
fails with an HTTP error. -/
def staleUpstream : Upstream := fun _ req =>
  match req.url with
  | .creativesToFollow =>
    if req.page = 1 then .body (creatorsBody [⟨7, "alice"⟩, ⟨8, "bob"⟩])
    else .body (creatorsBody [])
  | .userProjects username =>
    if username = "alice" then .body (projectsBody [⟨11⟩]) else .body (projectsBody [⟨12⟩])
  | .project id =>
    if id = 11 then .body (detailBody "Poster" "A poster" "https://host/img/p.png")
    else .failed "connection reset"

/-! ## The run that the specification describes when every fetch succeeds -/

/-- The creators that a response lists: its body decoded on its own, into a zero value. -/
def listedCreators : Response → List Creative
  | .body b => (b.creatives ⟨[]⟩).Creatives
  | .failed _ => []

/-- The id of the first project that a response lists (0 when it lists none). -/
def firstProjectID : Response → Int
  | .body b =>
    match (b.projects ⟨[]⟩).Projects with
    | first :: _ => first.ID
    | [] => 0
  | .failed _ => 0

/-- The project detail that a response carries: its body decoded on its own. -/
def carriedDetail : Response → Project
  | .body b => b.project ⟨⟨"", "", []⟩⟩
  | .failed _ => ⟨⟨"", "", []⟩⟩

/-- The string under `covers.original` of a project detail (empty when there is none). -/
def originalOf (p : Project) : String :=
  match p.Project.Src.lookup "original" with
  | some (.str s) => s
  | _ => ""

/-- The name that `getFilename` returns for a source URL. -/
def filenameOf (src : String) : String :=
  match getFilename src with
  | .ok name => name
  | .error _ => ""

/-- In the words of the specification: the events for the creators `cs` of one page, in listed
order, when the next request is the `n`-th of the run.  For each creator: the fetch of the
creator's projects, the fetch of the detail of the first listed project, one download of the
detail's `covers.original` and one save of the record made of the detail's name, description
and `covers.original`, with the filename that `getFilename` derives from the latter. -/
def expectedForCreators (apiKey : String) (api : Upstream) : Nat → List Creative → List Event
  | _, [] => []
  | n, creative :: rest =>
    let projectsReq : Request := ⟨.userProjects creative.Username, 1, apiKey⟩
    let detailReq : Request := ⟨.project (firstProjectID (api n projectsReq)), 1, apiKey⟩
    let detail := carriedDetail (api (n + 1) detailReq)
    let src := originalOf detail
    [.get projectsReq true, .get detailReq true, .goFetchPhotos src,
      .goSave ⟨0, detail.Project.Title, detail.Project.Description, filenameOf src, src⟩]
      ++ expectedForCreators apiKey api (n + 2) rest

/-- In the words of the specification: the events for the pages `pages` of the creator list, in
order, when the next request is the `n`-th of the run: for each page one fetch of the creator
list, then the events for the creators that it lists. -/
def expectedForPages (apiKey : String) (api : Upstream) : Nat → List Int → List Event
  | _, [] => []
  | n, page :: rest =>
    let listReq : Request := ⟨.creativesToFollow, page, apiKey⟩
    let creators := listedCreators (api n listReq)
    .get listReq true :: expectedForCreators apiKey api (n + 1) creators
      ++ expectedForPages apiKey api (n + 1 + 2 * creators.length) rest

/-- The pages of the creator list requested in the events, in order. -/
def pagesRequested (t : List Event) : List Int :=
  t.filterMap (fun e =>
    match e with
    | .get ⟨.creativesToFollow, page, _⟩ _ => some page
    | _ => none)

/-- A sample upstream in which every fetch succeeds: every page of the creator list names
`alice`, whose only project is number 11, with the detail of a poster. -/
def healthyUpstream : Upstream := fun _ req =>
  match req.url with
  | .creativesToFollow => .body (creatorsBody [⟨7, "alice"⟩])
  | .userProjects _ => .body (projectsBody [⟨11⟩])
  | .project _ => .body (detailBody "Poster" "A poster" "https://host/img/p.png")

/-- The requests among the events, in order: the `n`-th entry is the `n`-th request of the
run. -/
def requestsOf (t : List Event) : List Request :=
  t.filterMap (fun e =>
    match e with
    | .get req _ => some req
    | _ => none)

/-- A response to a request for `url` is complete: `http.Get` succeeds, and the body carries
everything that the loop reads from the destination of that fetch, so that the decoded content
does not depend on what the destination held before.  For the creator list: the list.  For a
project list: the list, which is not empty.  For a project detail: the name, the description and
a string under `covers.original`. -/
def Carries (r : Response) : Endpoint → Prop
  | .creativesToFollow => ∃ b, r = .body b ∧ ∀ old, b.creatives old = b.creatives ⟨[]⟩
  | .userProjects _ =>
    ∃ b, r = .body b ∧ (∀ old, b.projects old = b.projects ⟨[]⟩) ∧
      (b.projects ⟨[]⟩).Projects ≠ []
  | .project _ =>
    ∃ b s, r = .body b ∧ ∀ old,
      (b.project old).Project.Title = (b.project ⟨⟨"", "", []⟩⟩).Project.Title ∧
      (b.project old).Project.Description = (b.project ⟨⟨"", "", []⟩⟩).Project.Description ∧
      (b.project old).Project.Src.lookup "original" = some (.str s)

/-- Every request that the run of `fetchData` makes gets a complete response: the `n`-th
request of the run, whatever it is, is answered by a response that `Carries` what is read. -/
def CarriedRun (apiKey : String) (api : Upstream) : Prop :=
  ∀ (n : Nat) (req : Request),
    (requestsOf (eventsOf (fetchData apiKey api)))[n]? = some req → Carries (api n req) req.url

/-- In the words of the specification: every fetch succeeds and decodes, every creator has at
least one project and every project detail carries a string `covers.original`; nothing is asked
of the other fields of a body. -/
def Worded (api : Upstream) : Prop :=
  (∀ (n : Nat) (req : Request), ∃ b, api n req = .body b) ∧
  (∀ (n : Nat) (req : Request) (username : String) (b : Body),
    req.url = .userProjects username → api n req = .body b →
    ∀ old, (b.projects old).Projects ≠ []) ∧
  (∀ (n : Nat) (req : Request) (id : Int) (b : Body),
    req.url = .project id → api n req = .body b →
    ∀ old, ∃ s, (b.project old).Project.Src.lookup "original" = some (.str s))

/-- A body with a project detail that has a description and a string `covers.original` but no
`name` key: decoding leaves the title of the destination as it was. -/
def detailBodyWithoutName (description original : String) : Body :=
  ⟨id, id, fun old => ⟨⟨old.Project.Title, description, [("original", .str original)]⟩⟩⟩

/-- A sample upstream in which every fetch succeeds: page 1 of the creator list names `alice`
and `bob`, the other pages name nobody; `alice` has project 11, with a full detail; every other
user has project 12, whose detail has no `name` key. -/
def missingNameUpstream : Upstream := fun _ req =>
  match req.url with
  | .creativesToFollow =>
    if req.page = 1 then .body (creatorsBody [⟨7, "alice"⟩, ⟨8, "bob"⟩])
    else .body (creatorsBody [])
  | .userProjects username =>
    if username = "alice" then .body (projectsBody [⟨11⟩]) else .body (projectsBody [⟨12⟩])
  | .project id =>
    if id = 11 then .body (detailBody "Poster" "A poster" "https://host/img/p.png")
    else .body (detailBodyWithoutName "d2" "https://host/img/q.png")

/-! # Properties

## `getFilename` -/

theorem splitLoop_ne_nil (sep : Char) (cs cur : List Char) : splitLoop sep cs cur ≠ [] := by
  induction cs generalizing cur with
  | nil => simp [splitLoop]
  | cons c cs ih =>
    unfold splitLoop
    split
    · simp
    · exact ih _

/-- The last piece of the split: it holds no separator, and it is either everything read so far
(no separator in the rest of the input) or what follows the last separator of the input. -/
theorem splitLoop_getLast (sep : Char) (cs cur : List Char) :
    ∃ f, (splitLoop sep cs cur).getLast? = some f ∧
      ((sep ∉ cs ∧ f = cur.reverse ++ cs) ∨ (sep ∉ f ∧ ∃ p, cs = p ++ sep :: f)) := by
  induction cs generalizing cur with
  | nil => exact ⟨cur.reverse, by simp [splitLoop], Or.inl ⟨by simp, by simp⟩⟩
  | cons c cs ih =>
    unfold splitLoop
    split
    · rename_i hc
      subst hc
      obtain ⟨f, hf, h⟩ := ih []
      refine ⟨f, ?_, Or.inr ?_⟩
      · rw [List.getLast?_cons, hf]
        rfl
      · rcases h with ⟨hno, hfe⟩ | ⟨hno, p, hp⟩
        · simp only [List.reverse_nil, List.nil_append] at hfe
          subst hfe
          exact ⟨hno, [], rfl⟩
        · exact ⟨hno, c :: p, by simp [hp]⟩
    · rename_i hc
      obtain ⟨f, hf, h⟩ := ih (c :: cur)
      refine ⟨f, hf, ?_⟩
      rcases h with ⟨hno, hfe⟩ | ⟨hno, p, hp⟩
      · left
        refine ⟨?_, by simp [hfe]⟩
        intro hmem
        rcases List.mem_cons.1 hmem with h1 | h1
        · exact hc h1.symm
        · exact hno h1
      · exact Or.inr ⟨hno, c :: p, by simp [hp]⟩

/-- The part after the last separator is determined by the input. -/
theorem after_last_sep_unique (sep : Char) (p₁ p₂ f₁ f₂ : List Char)
    (h₁ : sep ∉ f₁) (h₂ : sep ∉ f₂) (h : p₁ ++ sep :: f₁ = p₂ ++ sep :: f₂) : f₁ = f₂ := by
  induction p₁ generalizing p₂ with
  | nil =>
    cases p₂ with
    | nil => simpa using h
    | cons c p₂ =>
      simp only [List.nil_append, List.cons_append, List.cons.injEq] at h
      exact absurd (h.2 ▸ (by simp : sep ∈ p₂ ++ sep :: f₂)) h₁
  | cons c p₁ ih =>
    cases p₂ with
    | nil =>
      simp only [List.nil_append, List.cons_append, List.cons.injEq] at h
      exact absurd (h.2 ▸ (by simp : sep ∈ p₁ ++ sep :: f₁)) h₂
    | cons d p₂ =>
      simp only [List.cons_append, List.cons.injEq] at h
      exact ih p₂ h.2

theorem getFilename_eq (src : String) :
    ∃ f, (splitLoop '/' src.data []).getLast? = some f ∧ getFilename src = .ok (String.mk f) := by
  obtain ⟨f, hf, -⟩ := splitLoop_getLast '/' src.data []
  refine ⟨f, hf, ?_⟩
  have hne := splitLoop_ne_nil '/' src.data []
  have hlen : ¬ ((splitLoop '/' src.data []).map String.mk).length < 1 := by
    simp only [List.length_map, Nat.lt_one_iff, List.length_eq_zero]
    exact hne
  have hget : ((splitLoop '/' src.data []).map String.mk)[
      ((splitLoop '/' src.data []).map String.mk).length - 1]? = some (String.mk f) := by
    rw [← List.getLast?_eq_getElem?, List.getLast?_map, hf]
    rfl
  simp only [getFilename, Split, hlen, if_false, hget]

/-- C2.  For every string `src`, the empty one included, `getFilename` returns normally (it
reaches neither its `log.Fatalf` nor a panic) and the name it returns holds no `/` and is either
all of `src`, when `src` holds no `/`, or what follows the last `/` of `src`; and a source URL
ending in `/folder/image123.png` gives the filename `image123.png`. -/
theorem getFilename_last_segment :
    (∀ src : String, ∃ name : String, getFilename src = .ok name ∧ '/' ∉ name.data ∧
      (('/' ∉ src.data ∧ name = src) ∨ ∃ dir : String, src = dir ++ "/" ++ name)) ∧
    (∀ url : String, getFilename (url ++ "/folder/image123.png") = .ok "image123.png") ∧
    getFilename "" = .ok "" ∧
    getFilename "image123.png" = .ok "image123.png" ∧
    getFilename "https://host/folder/" = .ok "" := by
  have main : ∀ src : String, ∃ name : String, getFilename src = .ok name ∧ '/' ∉ name.data ∧
      (('/' ∉ src.data ∧ name = src) ∨ ∃ dir : String, src = dir ++ "/" ++ name) := by
    intro src
    obtain ⟨f, hf, hok⟩ := getFilename_eq src
    obtain ⟨g, hg, h⟩ := splitLoop_getLast '/' src.data []
    have hfg : g = f := by
      rw [hf] at hg
      exact (Option.some.inj hg).symm
    subst hfg
    refine ⟨String.mk g, hok, ?_, ?_⟩
    · rcases h with ⟨hno, hfe⟩ | ⟨hno, -⟩
      · simpa [hfe] using hno
      · exact hno
    · rcases h with ⟨hno, hfe⟩ | ⟨-, p, hp⟩
      · left
        refine ⟨hno, ?_⟩
        simp only [List.reverse_nil, List.nil_append] at hfe
        rw [hfe]
      · right
        refine ⟨String.mk p, ?_⟩
        apply String.ext
        simp [String.data_append, hp]
  refine ⟨main, ?_, rfl, rfl, rfl⟩
  intro url
  obtain ⟨name, hok, hno, h⟩ := main (url ++ "/folder/image123.png")
  rw [hok]
  have hdata : (url ++ "/folder/image123.png").data
      = (url.data ++ "/folder".data) ++ '/' :: "image123.png".data := by
    simp [String.data_append]
  rcases h with ⟨habs, -⟩ | ⟨dir, hdir⟩
  · exact absurd (by rw [hdata]; simp) habs
  · have hd : (url.data ++ "/folder".data) ++ '/' :: "image123.png".data
        = dir.data ++ '/' :: name.data := by
      rw [← hdata, hdir]
      simp [String.data_append]
    have := after_last_sep_unique '/' _ _ _ _ (by decide) hno hd
    have hname : name = "image123.png" := String.ext this.symm
    rw [hname]

/-! ## The query handlers -/

theorem buildQuery_all_iff (u_query : Query) (r : Data) :
    (buildQuery u_query).all (fun m => m.Match r) = true ↔ Satisfies u_query r := by
  obtain ⟨t, d, f, s⟩ := u_query
  obtain ⟨rid, rt, rd, rf, rs⟩ := r
  by_cases ht : t = "" <;> by_cases hd : d = "" <;> by_cases hf : f = "" <;>
    by_cases hs : s = "" <;>
    simp [buildQuery, Satisfies, Matcher.Match, Data.field, q.Eq, ht, hd, hf, hs]

theorem selectFirst_firstMatch (db : DB) (u_query : Query) :
    FirstMatch db.records u_query (db.SelectFirst (buildQuery u_query) Data.zero) := by
  unfold DB.SelectFirst
  cases hfind : db.records.find? (fun r => (buildQuery u_query).all (fun m => m.Match r)) with
  | none =>
    right
    refine ⟨?_, rfl⟩
    intro r hr hsat
    rw [List.find?_eq_none] at hfind
    exact hfind r hr ((buildQuery_all_iff u_query r).2 hsat)
  | some d =>
    left
    rw [List.find?_eq_some] at hfind
    obtain ⟨hd, before, after, hsplit, hbefore⟩ := hfind
    refine ⟨before, after, hsplit, (buildQuery_all_iff u_query d).1 hd, ?_⟩
    intro r hr hsat
    have := hbefore r hr
    rw [(buildQuery_all_iff u_query r).2 hsat] at this
    simp at this

/-- The loop of `queryJSON` fills the positions one after the other. -/
theorem queryStep_foldl (db : DB) (qs : Queries) (done : List Data) (calls : List StoreCall) :
    (qs.enumFrom done.length).foldl (queryStep db)
        (done ++ List.replicate qs.length Data.zero, calls)
      = (done ++ qs.map (fun u => db.SelectFirst (buildQuery u) Data.zero),
         calls ++ qs.map (fun u => StoreCall.selectFirst (buildQuery u))) := by
  induction qs generalizing done calls with
  | nil => simp
  | cons u qs ih =>
    simp only [List.enumFrom_cons, List.foldl_cons, List.length_cons, List.replicate_succ,
      List.map_cons]
    have hset : (done ++ Data.zero :: List.replicate qs.length Data.zero).set done.length
        (db.SelectFirst (buildQuery u) Data.zero)
        = (done ++ [db.SelectFirst (buildQuery u) Data.zero])
            ++ List.replicate qs.length Data.zero := by
      rw [List.set_append_right _ _ (Nat.le_refl _)]
      simp
    have hlen : done.length + 1 = (done ++ [db.SelectFirst (buildQuery u) Data.zero]).length := by
      simp
    simp only [queryStep, hset]
    rw [hlen, ih]
    simp

theorem queryJSON_some (BindJSON : String → Option Queries) (db : DB) (body : String)
    (u_queries : Queries) (h : BindJSON body = some u_queries) :
    queryJSON BindJSON db body
      = ⟨⟨200, .records (u_queries.map (fun u => db.SelectFirst (buildQuery u) Data.zero))⟩,
         u_queries.map (fun u => StoreCall.selectFirst (buildQuery u)), none, none⟩ := by
  have := queryStep_foldl db u_queries [] []
  simp only [List.length_nil, List.nil_append] at this
  simp only [queryJSON, h, List.enum, this, StatusOK]

theorem pairwise_head_le (before after : List Data) (d r : Data)
    (hasc : (before ++ d :: after).Pairwise (fun a b => a.ID < b.ID))
    (hr : r ∈ before ++ d :: after) (hnot : r ∉ before) : d.ID ≤ r.ID := by
  rw [List.pairwise_append] at hasc
  obtain ⟨-, htail, -⟩ := hasc
  rcases List.mem_append.1 hr with h | h
  · exact absurd h hnot
  · rcases List.mem_cons.1 h with h | h
    · rw [h]
    · exact le_of_lt ((List.pairwise_cons.1 htail).1 r h)

/-- C1.  When the request body binds to the queries `u_queries`, `queryJSON` replies with status
200 and a list of records as long as `u_queries`, whose element `i` is the first stored record,
in store order, that agrees with every non-empty field of query `i`, or the zero-valued record
when no stored record does; over a table of ascending ids that record has the least id among
the records that agree.  For the single query with title `X` and nothing else, the reply is the
one-element list holding the first stored record titled `X`, or the zero-valued record when no
stored record has that title. -/
theorem queryJSON_first_match (BindJSON : String → Option Queries) (db : DB) (body : String) :
    (∀ u_queries, BindJSON body = some u_queries →
      ∃ details, (queryJSON BindJSON db body).reply = ⟨200, .records details⟩ ∧
        details.length = u_queries.length ∧
        ∀ (i : Nat) (u : Query), u_queries[i]? = some u →
          ∃ d, details[i]? = some d ∧ FirstMatch db.records u d ∧
            (db.records.Pairwise (fun a b => a.ID < b.ID) →
              ∀ r ∈ db.records, Satisfies u r → d.ID ≤ r.ID)) ∧
    (∀ X : String, X ≠ "" → BindJSON body = some [⟨X, "", "", ""⟩] →
      (∀ before r after, db.records = before ++ r :: after → r.Title = X →
          (∀ b ∈ before, b.Title ≠ X) →
          (queryJSON BindJSON db body).reply = ⟨200, .records [r]⟩) ∧
      ((∀ r ∈ db.records, r.Title ≠ X) →
          (queryJSON BindJSON db body).reply = ⟨200, .records [Data.zero]⟩)) := by
  refine ⟨?_, ?_⟩
  · intro u_queries h
    refine ⟨_, by rw [queryJSON_some BindJSON db body u_queries h], by simp, ?_⟩
    intro i u hi
    refine ⟨db.SelectFirst (buildQuery u) Data.zero, by simp [hi],
      selectFirst_firstMatch db u, ?_⟩
    intro hasc r hr hsat
    rcases selectFirst_firstMatch db u with ⟨before, after, hsplit, -, hbefore⟩ | ⟨hnone, -⟩
    · rw [hsplit] at hasc hr
      exact pairwise_head_le before after _ r hasc hr (fun hmem => hbefore r hmem hsat)
    · exact absurd hsat (hnone r hr)
  · intro X hX h
    have hsat : ∀ r : Data, Satisfies ⟨X, "", "", ""⟩ r ↔ r.Title = X := by
      intro r
      simp [Satisfies, hX]
    rw [queryJSON_some BindJSON db body _ h]
    refine ⟨?_, ?_⟩
    · intro before r after hsplit hr hbefore
      have hfind : db.records.find?
          (fun r => (buildQuery ⟨X, "", "", ""⟩).all (fun m => m.Match r)) = some r := by
        rw [List.find?_eq_some]
        refine ⟨(buildQuery_all_iff _ r).2 ((hsat r).2 hr), before, after, hsplit, ?_⟩
        intro b hb
        have hnb : ¬ (buildQuery ⟨X, "", "", ""⟩).all (fun m => m.Match b) = true :=
          fun hall => hbefore b hb ((hsat b).1 ((buildQuery_all_iff _ b).1 hall))
        simpa using hnb
      simp [DB.SelectFirst, hfind]
    · intro hnone
      have hfind : db.records.find?
          (fun r => (buildQuery ⟨X, "", "", ""⟩).all (fun m => m.Match r)) = none := by
        rw [List.find?_eq_none]
        intro r hr hall
        exact hnone r hr ((hsat r).1 ((buildQuery_all_iff _ r).1 hall))
      simp [DB.SelectFirst, hfind]

theorem queryJSON_first_match_witness :
    (∃ details, (queryJSON sampleBind sampleDB "[\x7b\"title\":\"X\"\x7d]").reply
        = ⟨200, .records details⟩ ∧
        details.length = [(⟨"X", "", "", ""⟩ : Query)].length ∧
        ∀ (i : Nat) (u : Query), [(⟨"X", "", "", ""⟩ : Query)][i]? = some u →
          ∃ d, details[i]? = some d ∧ FirstMatch sampleDB.records u d ∧
            (sampleDB.records.Pairwise (fun a b => a.ID < b.ID) →
              ∀ r ∈ sampleDB.records, Satisfies u r → d.ID ≤ r.ID)) ∧
    (queryJSON sampleBind sampleDB "[\x7b\"title\":\"X\"\x7d]").reply
      = ⟨200, .records [⟨2, "X", "second", "x.png", "https://host/x.png"⟩]⟩ ∧
    (queryJSON sampleBind DB.empty "[\x7b\"title\":\"X\"\x7d]").reply
      = ⟨200, .records [Data.zero]⟩ :=
  ⟨(queryJSON_first_match sampleBind sampleDB "[\x7b\"title\":\"X\"\x7d]").1 _ rfl,
   ((queryJSON_first_match sampleBind sampleDB "[\x7b\"title\":\"X\"\x7d]").2 "X" (by decide)
      rfl).1 [⟨1, "A", "first", "a.png", "https://host/a.png"⟩] _
      [⟨3, "X", "third", "y.png", "https://host/y.png"⟩] rfl rfl (by decide),
   ((queryJSON_first_match sampleBind DB.empty "[\x7b\"title\":\"X\"\x7d]").2 "X" (by decide)
      rfl).2 (by decide)⟩

/-- C5.  A request body that does not bind gets the reply 400 with the fixed message object,
and no call on the store is made; a body that binds gets status 200, which is not 400. -/
theorem queryJSON_bad_request (BindJSON : String → Option Queries) (db : DB) (body : String) :
    (BindJSON body = none →
      (queryJSON BindJSON db body).reply
        = ⟨400, .object [("message", "Error occurred when parsing your JSON query ! X( ")]⟩ ∧
      (queryJSON BindJSON db body).calls = []) ∧
    (∀ u_queries, BindJSON body = some u_queries →
      (queryJSON BindJSON db body).reply.status = 200 ∧
      (queryJSON BindJSON db body).reply.status ≠ 400) := by
  refine ⟨?_, ?_⟩
  · intro h
    simp [queryJSON, h, StatusBadRequest, parseErrorMessage]
  · intro u_queries h
    rw [queryJSON_some BindJSON db body u_queries h]
    simp

theorem queryJSON_bad_request_witness :
    ((queryJSON sampleBind sampleDB "not json").reply
        = ⟨400, .object [("message", "Error occurred when parsing your JSON query ! X( ")]⟩ ∧
      (queryJSON sampleBind sampleDB "not json").calls = []) ∧
    ((queryJSON sampleBind sampleDB "[\x7b\x7d]").reply.status = 200 ∧
      (queryJSON sampleBind sampleDB "[\x7b\x7d]").reply.status ≠ 400) :=
  ⟨(queryJSON_bad_request sampleBind sampleDB "not json").1 rfl,
   (queryJSON_bad_request sampleBind sampleDB "[\x7b\x7d]").2 _ rfl⟩

theorem buildQuery_eq_append (u : Query) :
    buildQuery u
      = (if u.Title ≠ "" then [q.Eq "Title" u.Title] else []) ++
        (if u.Description ≠ "" then [q.Eq "Description" u.Description] else []) ++
        (if u.Filename ≠ "" then [q.Eq "Filename" u.Filename] else []) ++
        (if u.Src ≠ "" then [q.Eq "Src" u.Src] else []) := by
  obtain ⟨t, d, f, s⟩ := u
  by_cases ht : t = "" <;> by_cases hd : d = "" <;> by_cases hf : f = "" <;>
    by_cases hs : s = "" <;> simp [buildQuery, ht, hd, hf, hs]

theorem buildQuery_value_ne_empty (u_query : Query) (m : Matcher) (hm : m ∈ buildQuery u_query) :
    m.value ≠ "" := by
  rw [buildQuery_eq_append] at hm
  simp only [List.mem_append] at hm
  rcases hm with ((h | h) | h) | h <;> split at h <;>
    first
    | (exact absurd h (List.not_mem_nil _))
    | (rw [List.mem_singleton] at h
       subst h
       assumption)

/-- C10.  A query object whose four fields are all empty gives the empty matcher list, and
`queryJSON` answers it, at its position, with the first stored record when the store holds a
record and with the zero-valued record when the store is empty; over a valid store the answer
is the zero-valued record only when the store is empty.  No matcher that `queryJSON` builds
compares a field with the empty string. -/
theorem empty_fields_add_no_constraint :
    (∀ u : Query, u.Title = "" → u.Description = "" → u.Filename = "" → u.Src = "" →
      buildQuery u = []) ∧
    (∀ (BindJSON : String → Option Queries) (db : DB) (body : String) (u_queries : Queries)
        (i : Nat) (u : Query),
      BindJSON body = some u_queries → u_queries[i]? = some u →
      u.Title = "" → u.Description = "" → u.Filename = "" → u.Src = "" →
      ∃ details, (queryJSON BindJSON db body).reply = ⟨200, .records details⟩ ∧
        details[i]? = some (db.records.head?.getD Data.zero) ∧
        (db.Valid → (details[i]? = some Data.zero ↔ db.records = []))) ∧
    (∀ (u : Query) (m : Matcher), m ∈ buildQuery u → m.value ≠ "") := by
  have hbuild : ∀ u : Query, u.Title = "" → u.Description = "" → u.Filename = "" →
      u.Src = "" → buildQuery u = [] := by
    intro u ht hd hf hs
    simp [buildQuery, ht, hd, hf, hs]
  refine ⟨hbuild, ?_, buildQuery_value_ne_empty⟩
  intro BindJSON db body u_queries i u h hi ht hd hf hs
  have hsel : db.SelectFirst (buildQuery u) Data.zero = db.records.head?.getD Data.zero := by
    rw [hbuild u ht hd hf hs]
    unfold DB.SelectFirst
    cases db.records <;> simp
  have hget : (u_queries.map (fun u => db.SelectFirst (buildQuery u) Data.zero))[i]?
      = some (db.records.head?.getD Data.zero) := by
    simp [hi, hsel]
  refine ⟨_, by rw [queryJSON_some BindJSON db body u_queries h], hget, ?_⟩
  intro hvalid
  rw [hget]
  constructor
  · intro hz
    cases hrec : db.records with
    | nil => rfl
    | cons r rs =>
      rw [hrec] at hz
      simp only [List.head?_cons, Option.getD_some, Option.some.injEq] at hz
      have := (hvalid.2.2 r (by rw [hrec]; simp)).1
      rw [hz] at this
      simp [Data.zero] at this
  · intro hnil
    rw [hnil]
    rfl

theorem empty_fields_add_no_constraint_witness :
    ∃ details, (queryJSON sampleBind sampleDB "[\x7b\x7d]").reply = ⟨200, .records details⟩ ∧
      details[0]? = some (sampleDB.records.head?.getD Data.zero) ∧
      (sampleDB.Valid → (details[0]? = some Data.zero ↔ sampleDB.records = [])) :=
  empty_fields_add_no_constraint.2.1 sampleBind sampleDB "[\x7b\x7d]" [⟨"", "", "", ""⟩] 0
    ⟨"", "", "", ""⟩ rfl rfl rfl rfl rfl rfl

/-! ## The record store -/

theorem save_zero (db : DB) (d : Data) (hd : d.ID = 0) :
    db.Save d = ⟨db.records ++ [{ d with ID := db.seq + 1 }], db.seq + 1⟩ := by
  simp [DB.Save, hd]

theorem valid_empty : DB.empty.Valid := by
  simp [DB.Valid, DB.empty]

theorem valid_lt_next (db : DB) (hv : db.Valid) : ∀ r ∈ db.records, r.ID < db.seq + 1 := by
  intro r hr
  have := (hv.2.2 r hr).2
  omega

theorem valid_save (db : DB) (d : Data) (hv : db.Valid) (hd : d.ID = 0) : (db.Save d).Valid := by
  rw [save_zero db d hd]
  obtain ⟨hseq, hasc, hrange⟩ := hv
  refine ⟨by show 0 ≤ db.seq + 1; omega, ?_, ?_⟩
  · rw [List.pairwise_append]
    refine ⟨hasc, by simp, ?_⟩
    intro a ha b hb
    rw [List.mem_singleton] at hb
    subst hb
    have := (hrange a ha).2
    show a.ID < db.seq + 1
    omega
  · intro r hr
    rcases List.mem_append.1 hr with h | h
    · have := hrange r h
      exact ⟨this.1, by show r.ID ≤ db.seq + 1; omega⟩
    · rw [List.mem_singleton] at h
      subst h
      exact ⟨by show 1 ≤ db.seq + 1; omega, by show db.seq + 1 ≤ db.seq + 1; omega⟩

theorem foldl_save (ds : List Data) (db : DB) (h0 : ∀ d ∈ ds, d.ID = 0) :
    ds.foldl DB.Save db = ⟨db.records ++ stamp (db.seq + 1) ds, db.seq + ds.length⟩ := by
  induction ds generalizing db with
  | nil => simp [stamp]
  | cons d ds ih =>
    rw [List.foldl_cons, save_zero db d (h0 d (by simp)),
      ih _ (fun x hx => h0 x (List.mem_cons_of_mem _ hx))]
    simp only [stamp, List.append_assoc, List.singleton_append, List.length_cons, Nat.cast_add,
      Nat.cast_one, DB.mk.injEq, true_and]
    omega

theorem valid_foldl_save (ds : List Data) (db : DB) (hv : db.Valid) (h0 : ∀ d ∈ ds, d.ID = 0) :
    (ds.foldl DB.Save db).Valid := by
  induction ds generalizing db with
  | nil => exact hv
  | cons d ds ih =>
    rw [List.foldl_cons]
    exact ih _ (valid_save db d hv (h0 d (by simp))) (fun x hx => h0 x (List.mem_cons_of_mem _ hx))

theorem stamp_length (start : Int) (ds : List Data) : (stamp start ds).length = ds.length := by
  induction ds generalizing start with
  | nil => rfl
  | cons d ds ih => simp [stamp, ih]

theorem stamp_getElem? (start : Int) (ds : List Data) (i : Nat) (d : Data)
    (h : ds[i]? = some d) : (stamp start ds)[i]? = some { d with ID := start + i } := by
  induction ds generalizing start i with
  | nil => simp at h
  | cons x ds ih =>
    cases i with
    | zero =>
      simp only [List.getElem?_cons_zero, Option.some.injEq] at h
      subst h
      simp [stamp]
    | succ i =>
      simp only [List.getElem?_cons_succ] at h
      simp only [stamp, List.getElem?_cons_succ, ih (start + 1) i h, Nat.cast_add, Nat.cast_one,
        Option.some.injEq, Data.mk.injEq, and_true]
      omega

theorem buildData_id (rsc : Project) (d : Data) (h : buildData rsc = .ok d) : d.ID = 0 := by
  unfold buildData at h
  split at h
  · cases h
  · split at h
    · cases h
    · split at h
      · cases h
      · cases h
        rfl

/-- C8.  Every record that the ingestion loop builds has `ID` zero.  Over a valid store (the
empty store is valid, and a save keeps the store valid), the save of a record whose `ID` is zero
adds exactly one record, after the stored ones and equal to the saved one but for its id; that
id is larger than every stored id, and nothing stored is changed or dropped.  The store reached from the empty one by any such saves holds as many
records as were saved, with strictly ascending and pairwise distinct ids; and saving the same
record twice leaves two records with its title, description, filename and src and two
different ids. -/
theorem save_assigns_fresh_id :
    (∀ (db : DB) (d : Data), db.Valid → d.ID = 0 →
      (db.Save d).records = db.records ++ [{ d with ID := db.seq + 1 }] ∧
      (∀ r ∈ db.records, r.ID < db.seq + 1) ∧
      (db.Save d).Valid) ∧
    DB.empty.Valid ∧
    (∀ ds : List Data, (∀ d ∈ ds, d.ID = 0) →
      ((ds.foldl DB.Save DB.empty).records.length = ds.length ∧
       (ds.foldl DB.Save DB.empty).records.Pairwise (fun a b => a.ID < b.ID) ∧
       ((ds.foldl DB.Save DB.empty).records.map Data.ID).Nodup)) ∧
    (∀ (db : DB) (d : Data), db.Valid → d.ID = 0 →
      ∃ r₁ r₂, ((db.Save d).Save d).records = db.records ++ [r₁, r₂] ∧ r₁.ID ≠ r₂.ID ∧
        r₁ = { d with ID := r₁.ID } ∧ r₂ = { d with ID := r₂.ID }) ∧
    (∀ (rsc : Project) (d : Data), buildData rsc = .ok d → d.ID = 0) := by
  refine ⟨?_, valid_empty, ?_, ?_, buildData_id⟩
  · intro db d hv hd
    exact ⟨by rw [save_zero db d hd], valid_lt_next db hv, valid_save db d hv hd⟩
  · intro ds h0
    have hv := valid_foldl_save ds DB.empty valid_empty h0
    refine ⟨?_, hv.2.1, ?_⟩
    · rw [foldl_save ds DB.empty h0]
      simp [DB.empty, stamp_length]
    · have hasc := hv.2.1
      rw [List.Nodup, List.pairwise_map]
      exact hasc.imp (fun hlt => ne_of_lt hlt)
  · intro db d hv hd
    refine ⟨{ d with ID := db.seq + 1 }, { d with ID := db.seq + 1 + 1 }, ?_, ?_, rfl, rfl⟩
    · rw [save_zero db d hd, save_zero _ d hd]
      simp
    · show db.seq + 1 ≠ db.seq + 1 + 1
      omega

theorem save_assigns_fresh_id_witness :
    ((sampleDB.Save sampleRecord).records
        = sampleDB.records ++ [{ sampleRecord with ID := sampleDB.seq + 1 }] ∧
      (∀ r ∈ sampleDB.records, r.ID < sampleDB.seq + 1) ∧
      (sampleDB.Save sampleRecord).Valid) ∧
    (([sampleRecord, sampleRecord].foldl DB.Save DB.empty).records.length = 2 ∧
      ([sampleRecord, sampleRecord].foldl DB.Save DB.empty).records.Pairwise
        (fun a b => a.ID < b.ID) ∧
      (([sampleRecord, sampleRecord].foldl DB.Save DB.empty).records.map Data.ID).Nodup) :=
  ⟨save_assigns_fresh_id.1 sampleDB sampleRecord
      ⟨by decide, by decide, by decide⟩ rfl,
   save_assigns_fresh_id.2.2.1 [sampleRecord, sampleRecord] (by decide)⟩

/-- C7.  After the records `ds`, each with `ID` zero as the ingestion loop builds them, were
saved in this order into the empty store, `queryFull` replies with status 200 and a list of
exactly as many records, whose element `i` has the title, description, filename and src of the
`i`-th saved record (and the id `i + 1`), whatever happens to the results file. -/
theorem queryFull_returns_saved (ds : List Data) (fs : ResultsFile)
    (h0 : ∀ d ∈ ds, d.ID = 0) :
    ∃ rs, (queryFull (ds.foldl DB.Save DB.empty) fs).reply = ⟨200, .records rs⟩ ∧
      rs.length = ds.length ∧
      ∀ (i : Nat) (d : Data), ds[i]? = some d →
        ∃ r, rs[i]? = some r ∧ r.Title = d.Title ∧ r.Description = d.Description ∧
          r.Filename = d.Filename ∧ r.Src = d.Src ∧ r.ID = i + 1 := by
  refine ⟨stamp 1 ds, ?_, stamp_length 1 ds, ?_⟩
  · rw [foldl_save ds DB.empty h0]
    obtain ⟨c, w⟩ := fs
    cases c <;> cases w <;> simp [queryFull, DB.All, DB.empty, StatusOK]
  · intro i d hi
    refine ⟨_, stamp_getElem? 1 ds i d hi, rfl, rfl, rfl, rfl, ?_⟩
    show (1 : Int) + i = i + 1
    omega

theorem queryFull_returns_saved_witness :
    ∃ rs, (queryFull ([sampleRecord, sampleRecord].foldl DB.Save DB.empty) ⟨true, true⟩).reply
        = ⟨200, .records rs⟩ ∧
      rs.length = [sampleRecord, sampleRecord].length ∧
      ∀ (i : Nat) (d : Data), [sampleRecord, sampleRecord][i]? = some d →
        ∃ r, rs[i]? = some r ∧ r.Title = d.Title ∧ r.Description = d.Description ∧
          r.Filename = d.Filename ∧ r.Src = d.Src ∧ r.ID = i + 1 :=
  queryFull_returns_saved [sampleRecord, sampleRecord] ⟨true, true⟩ (by decide)

/-! ## The ingestion loop and the photo download -/

/-- C3 (at the failing input).  With an upstream that fails every request, `fetchData` makes its
ten requests of the creator list and returns normally.  With an upstream that serves the creator
list and fails every other request, it does not return: the first creator's project list is
never filled, and the index `projList.Projects[0]` panics after two requests.  With an upstream
that also serves the project lists but fails the project details, the run ends in the panic of
the type assertion on `rsc.Project.Src["original"]` after three requests. -/
theorem fetchData_panics_on_failed_fetch :
    eventsOf (fetchData "KEY" (fun _ _ => .failed "connection refused"))
      = (List.range 10).map
          (fun (i : Nat) => Event.get ⟨.creativesToFollow, 1 + (i : Int), "KEY"⟩ false) ∧
    (∃ st, fetchData "KEY" (fun _ _ => .failed "connection refused") = .ok st) ∧
    fetchData "KEY" listOnlyUpstream
      = .error ⟨.panic "index out of range [0] with length 0",
          [.get ⟨.creativesToFollow, 1, "KEY"⟩ true,
           .get ⟨.userProjects "alice", 1, "KEY"⟩ false]⟩ ∧
    fetchData "KEY" noDetailUpstream
      = .error ⟨.panic "interface conversion: not a string",
          [.get ⟨.creativesToFollow, 1, "KEY"⟩ true,
           .get ⟨.userProjects "alice", 1, "KEY"⟩ true,
           .get ⟨.project 11, 1, "KEY"⟩ false]⟩ :=
  ⟨by decide, ⟨_, rfl⟩, rfl, rfl⟩

/-- C4 (at the failing input).  `fetchPhotos` returns the error of a failed `client.Get` and of
a failed read of the body.  But for the source URL `https://host/folder/`, whose bytes are
served, the write to the path `photos` fails and `fetchPhotos` returns the nil error with no file
written. -/
theorem fetchPhotos_drops_write_error :
    (∀ src err : String,
      fetchPhotos { sampleEnv with Get := fun _ => .failed err } src = .ok (some err, none)) ∧
    (∀ src err : String,
      fetchPhotos { sampleEnv with Get := fun _ => .response (.error err) } src
        = .ok (some err, none)) ∧
    sampleEnv.WriteFile (Join (Join "." "photos") "") [1, 2, 3] ≠ none ∧
    getFilename "https://host/folder/" = .ok "" ∧
    fetchPhotos sampleEnv "https://host/folder/" = .ok (none, none) :=
  ⟨fun _ _ => rfl, fun _ _ => rfl, by decide, rfl, rfl⟩

theorem lastSave_snoc_get (t : List Event) (req : Request) (ok : Bool) :
    lastSave (t ++ [.get req ok]) = lastSave t := by
  simp [lastSave, List.foldl_append]

theorem lastSave_snoc_save (t : List Event) (d : Data) :
    lastSave (t ++ [.goSave d]) = some d := by
  simp [lastSave, List.foldl_append]

theorem reusesLast_nil : ReusesLast [] := by
  intro t₀ id page key post d₁ h
  simp at h

/-- Adding a block of events keeps `ReusesLast`, provided that every failed project-detail
request inside the block that comes after a save is followed, in the block, by the download and
the save of the record of that save. -/
theorem reusesLast_append (t block : List Event) (ht : ReusesLast t)
    (hblock : ∀ (pre : List Event) (id page : Int) (key : String) (post : List Event) (d₁ : Data),
      block = pre ++ [.get ⟨.project id, page, key⟩ false] ++ post →
      lastSave (t ++ pre) = some d₁ →
      ∃ rest, post = [.goFetchPhotos d₁.Src, .goSave d₁] ++ rest) :
    ReusesLast (t ++ block) := by
  intro t₀ id page key post d₁ h hlast
  rw [List.append_assoc] at h
  rcases List.append_eq_append_iff.1 h with ⟨pre, h1, h2⟩ | ⟨mid, h1, h2⟩
  · rw [h1] at hlast
    exact hblock pre id page key post d₁ (by rw [h2, List.append_assoc]) hlast
  · cases mid with
    | nil =>
      rw [List.append_nil] at h1
      rw [← h1] at hlast
      refine hblock [] id page key post d₁ ?_ (by simpa using hlast)
      rw [List.nil_append] at h2
      rw [← h2, List.nil_append]
    | cons x mid =>
      simp only [List.singleton_append, List.cons_append, List.cons.injEq] at h2
      obtain ⟨hx, hpost⟩ := h2
      subst hx
      obtain ⟨rest, hrest⟩ := ht t₀ id page key mid d₁ (by rw [h1]; simp) hlast
      rw [List.nil_append] at hpost
      exact ⟨rest ++ block, by rw [hpost, hrest]; simp⟩

theorem fetch_failed {α : Type} [Dest α] (apiKey : String) (api : Upstream) (url : Endpoint)
    (page : Int) (dest : α) (net : Net) (err : String)
    (h : api net.calls ⟨url, page, apiKey⟩ = .failed err) :
    fetch apiKey api url page dest net
      = (some err, dest, ⟨net.calls + 1, net.trace ++ [.get ⟨url, page, apiKey⟩ false]⟩) := by
  simp only [fetch, h]

theorem fetch_body {α : Type} [Dest α] (apiKey : String) (api : Upstream) (url : Endpoint)
    (page : Int) (dest : α) (net : Net) (b : Body)
    (h : api net.calls ⟨url, page, apiKey⟩ = .body b) :
    fetch apiKey api url page dest net
      = (none, Dest.Decode b dest,
          ⟨net.calls + 1, net.trace ++ [.get ⟨url, page, apiKey⟩ true]⟩) := by
  simp only [fetch, h]

/-- The two outcomes of `fetch`: one more request is on record in both; after an error of
`http.Get`, `dest` is as before. -/
theorem fetch_cases {α : Type} [Dest α] (apiKey : String) (api : Upstream) (url : Endpoint)
    (page : Int) (dest : α) (net : Net) :
    ∃ err dest' ok, fetch apiKey api url page dest net
        = (err, dest', ⟨net.calls + 1, net.trace ++ [.get ⟨url, page, apiKey⟩ ok]⟩) ∧
      (ok = false → dest' = dest) := by
  cases h : api net.calls ⟨url, page, apiKey⟩ with
  | failed e => exact ⟨some e, dest, false, fetch_failed _ _ _ _ _ _ e h, fun _ => rfl⟩
  | body b =>
    exact ⟨none, Dest.Decode b dest, true, fetch_body _ _ _ _ _ _ b h, fun h => by cases h⟩

theorem forCreative_good (apiKey : String) (api : Upstream) (st : Vars) (creative : Creative)
    (h : st.Inv) : Good (forCreative apiKey api st creative) := by
  obtain ⟨hP, hL⟩ := h
  obtain ⟨e₁, projList, ok₁, hf₁, -⟩ :=
    fetch_cases apiKey api (.userProjects creative.Username) 1 st.projList st.net
  unfold forCreative
  rw [hf₁]
  simp only []
  cases hidx : projList.Projects[0]? with
  | none =>
    refine reusesLast_append _ _ hP ?_
    intro pre id page key post d₁ hsplit _
    rcases pre with _ | ⟨x, pre⟩ <;> simp at hsplit
  | some first =>
    simp only []
    obtain ⟨e₂, rsc, ok₂, hf₂, hsame⟩ := fetch_cases apiKey api (.project first.ID) 1 st.rsc
      ⟨st.net.calls + 1, st.net.trace ++ [.get ⟨.userProjects creative.Username, 1, apiKey⟩ ok₁]⟩
    rw [hf₂]
    simp only []
    cases hb : buildData rsc with
    | error cause =>
      show ReusesLast (st.net.trace ++ [.get ⟨.userProjects creative.Username, 1, apiKey⟩ ok₁]
        ++ [.get ⟨.project first.ID, 1, apiKey⟩ ok₂])
      rw [List.append_assoc]
      refine reusesLast_append _ _ hP ?_
      intro pre id page key post d₁ hsplit hlast
      rcases pre with _ | ⟨x₀, _ | ⟨x₁, pre⟩⟩ <;> simp at hsplit
      obtain ⟨hx₀, ⟨-, hok⟩, -⟩ := hsplit
      rw [← hx₀, lastSave_snoc_get] at hlast
      rw [hsame hok, hL d₁ hlast] at hb
      cases hb
    | ok data =>
      simp only []
      have hshape : st.net.trace ++ [.get ⟨.userProjects creative.Username, 1, apiKey⟩ ok₁]
            ++ [.get ⟨.project first.ID, 1, apiKey⟩ ok₂] ++ [.goFetchPhotos data.Src, .goSave data]
          = st.net.trace ++ [.get ⟨.userProjects creative.Username, 1, apiKey⟩ ok₁,
              .get ⟨.project first.ID, 1, apiKey⟩ ok₂, .goFetchPhotos data.Src, .goSave data] := by
        simp
      refine ⟨?_, ?_⟩
      · show ReusesLast (_ ++ [Event.goFetchPhotos data.Src, Event.goSave data])
        rw [hshape]
        refine reusesLast_append _ _ hP ?_
        intro pre id page key post d₁ hsplit hlast
        rcases pre with _ | ⟨x₀, _ | ⟨x₁, _ | ⟨x₂, _ | ⟨x₃, pre⟩⟩⟩⟩ <;> simp at hsplit
        obtain ⟨hx₀, ⟨-, hok⟩, hpost⟩ := hsplit
        rw [← hx₀, lastSave_snoc_get] at hlast
        have hbuilt := hL d₁ hlast
        rw [hsame hok, hbuilt] at hb
        have hdata : d₁ = data := Except.ok.inj hb
        exact ⟨[], by rw [← hpost, hdata]; rfl⟩
      · intro d hd
        show buildData rsc = .ok d
        have hlast : lastSave ((st.net.trace
            ++ [.get ⟨.userProjects creative.Username, 1, apiKey⟩ ok₁]
            ++ [.get ⟨.project first.ID, 1, apiKey⟩ ok₂]
            ++ [.goFetchPhotos data.Src]) ++ [.goSave data]) = some d := by
          rw [← hd]
          simp
        rw [lastSave_snoc_save] at hlast
        rw [hb, Option.some.inj hlast]

theorem foldlM_good {β : Type} (f : Vars → β → Except Crash Vars)
    (hf : ∀ st x, st.Inv → Good (f st x)) (xs : List β) (st : Vars) (h : st.Inv) :
    Good (xs.foldlM f st) := by
  induction xs generalizing st with
  | nil => exact h
  | cons x xs ih =>
    rw [List.foldlM_cons]
    have hx := hf st x h
    cases hfx : f st x with
    | error crash =>
      rw [hfx] at hx
      exact hx
    | ok st' =>
      rw [hfx] at hx
      exact ih st' hx

theorem forPage_good (apiKey : String) (api : Upstream) (st : Vars) (i : Nat) (h : st.Inv) :
    Good (forPage apiKey api st i) := by
  obtain ⟨e, urList, ok, hf, -⟩ :=
    fetch_cases apiKey api .creativesToFollow (1 + (i : Int)) st.urList st.net
  unfold forPage
  rw [hf]
  simp only []
  refine foldlM_good _ (forCreative_good apiKey api) _ _ ⟨?_, ?_⟩
  · refine reusesLast_append _ _ h.1 ?_
    intro pre id page key post d₁ hsplit _
    rcases pre with _ | ⟨x, pre⟩ <;> simp at hsplit
  · intro d hd
    have hd' : lastSave (st.net.trace ++ [.get ⟨.creativesToFollow, 1 + (i : Int), apiKey⟩ ok])
        = some d := hd
    rw [lastSave_snoc_get] at hd'
    exact h.2 d hd'

theorem fetchData_good (apiKey : String) (api : Upstream) : Good (fetchData apiKey api) :=
  foldlM_good _ (forPage_good apiKey api) _ _ ⟨reusesLast_nil, fun d hd => by cases hd⟩

/-- C9.  An error of `http.Get` makes `fetch` return that error with `dest` as it was.  So, in
every run of `fetchData`, with any upstream and whether the run returns or not: when a
project-detail request fails with an HTTP error after some record was saved, the run goes on,
and its next two events are the download of the source of the last saved record (the record
built for the previous creator) and the save of a record with the same title, description,
filename and src as that record. -/
theorem failed_fetch_reuses_previous_record (apiKey : String) (api : Upstream) :
    (∀ (α : Type) [Dest α] (url : Endpoint) (page : Int) (dest : α) (net : Net) (err : String),
      api net.calls ⟨url, page, apiKey⟩ = .failed err →
      (fetch apiKey api url page dest net).1 = some err ∧
      (fetch apiKey api url page dest net).2.1 = dest) ∧
    (∀ (t₀ : List Event) (id page : Int) (key : String) (post : List Event) (d₁ : Data),
      eventsOf (fetchData apiKey api) = t₀ ++ [.get ⟨.project id, page, key⟩ false] ++ post →
      lastSave t₀ = some d₁ →
      ∃ d₂ rest, post = [.goFetchPhotos d₁.Src, .goSave d₂] ++ rest ∧
        d₂.Title = d₁.Title ∧ d₂.Description = d₁.Description ∧ d₂.Filename = d₁.Filename ∧
        d₂.Src = d₁.Src) := by
  refine ⟨?_, ?_⟩
  · intro α _ url page dest net err h
    rw [fetch_failed apiKey api url page dest net err h]
    exact ⟨rfl, rfl⟩
  · intro t₀ id page key post d₁ heq hlast
    have hgood := fetchData_good apiKey api
    have hrule : ReusesLast (eventsOf (fetchData apiKey api)) := by
      cases hrun : fetchData apiKey api with
      | error crash =>
        rw [hrun] at hgood
        exact hgood
      | ok st =>
        rw [hrun] at hgood
        exact hgood.1
    obtain ⟨rest, hrest⟩ := hrule t₀ id page key post d₁ heq hlast
    exact ⟨d₁, rest, hrest, rfl, rfl, rfl, rfl⟩

theorem getFilename_filenameOf (src : String) : getFilename src = .ok (filenameOf src) := by
  obtain ⟨f, -, hok⟩ := getFilename_eq src
  simp only [filenameOf, hok]

theorem requestsOf_append (t u : List Event) :
    requestsOf (t ++ u) = requestsOf t ++ requestsOf u := by
  simp [requestsOf, List.filterMap_append]

/-- The request made when `calls` requests are on record is the entry number `calls` of the
requests of every run that goes on from there. -/
theorem requestsOf_next (t ext T : List Event) (req : Request) (ok : Bool)
    (hpre : t ++ [.get req ok] ++ ext <+: T) :
    (requestsOf T)[(requestsOf t).length]? = some req := by
  obtain ⟨z, rfl⟩ := hpre
  have hsplit : requestsOf (t ++ [.get req ok] ++ ext ++ z)
      = requestsOf t ++ (req :: requestsOf (ext ++ z)) := by
    simp [requestsOf_append, requestsOf]
  rw [hsplit, List.getElem?_append_right (Nat.le_refl _)]
  simp

/-- The events of one turn of the inner loop start with the events before it and the request
of the creator's projects. -/
theorem forCreative_extends (apiKey : String) (api : Upstream) (st : Vars) (creative : Creative) :
    ∃ ok ext, eventsOf (forCreative apiKey api st creative)
      = st.net.trace ++ [.get ⟨.userProjects creative.Username, 1, apiKey⟩ ok] ++ ext := by
  obtain ⟨e₁, projList, ok₁, hf₁, -⟩ :=
    fetch_cases apiKey api (.userProjects creative.Username) 1 st.projList st.net
  refine ⟨ok₁, ?_⟩
  unfold forCreative
  rw [hf₁]
  simp only []
  cases hidx : projList.Projects[0]? with
  | none => exact ⟨[], by simp [eventsOf]⟩
  | some first =>
    simp only []
    obtain ⟨e₂, rsc, ok₂, hf₂, -⟩ := fetch_cases apiKey api (.project first.ID) 1 st.rsc
      ⟨st.net.calls + 1, st.net.trace ++ [.get ⟨.userProjects creative.Username, 1, apiKey⟩ ok₁]⟩
    rw [hf₂]
    simp only []
    cases hb : buildData rsc with
    | error cause => exact ⟨[.get ⟨.project first.ID, 1, apiKey⟩ ok₂], by simp [eventsOf]⟩
    | ok data =>
      exact ⟨[.get ⟨.project first.ID, 1, apiKey⟩ ok₂, .goFetchPhotos data.Src, .goSave data],
        by simp [eventsOf]⟩

/-- When the project list is served and not empty, the events of the turn go on with the
request of the detail of its first project. -/
theorem forCreative_extends_detail (apiKey : String) (api : Upstream) (st : Vars)
    (creative : Creative) (b₁ : Body) (first : UserProject) (rest : List UserProject)
    (hb₁ : api st.net.calls ⟨.userProjects creative.Username, 1, apiKey⟩ = .body b₁)
    (hproj : (b₁.projects st.projList).Projects = first :: rest) :
    ∃ ok ext, eventsOf (forCreative apiKey api st creative)
      = (st.net.trace ++ [.get ⟨.userProjects creative.Username, 1, apiKey⟩ true])
        ++ [.get ⟨.project first.ID, 1, apiKey⟩ ok] ++ ext := by
  have hf₁ := fetch_body apiKey api (.userProjects creative.Username) 1 st.projList st.net b₁ hb₁
  have hdec : (Dest.Decode b₁ st.projList : UserProjectsSlice) = b₁.projects st.projList := rfl
  unfold forCreative
  rw [hf₁]
  simp only [hdec, hproj, List.getElem?_cons_zero]
  obtain ⟨e₂, rsc, ok₂, hf₂, -⟩ := fetch_cases apiKey api (.project first.ID) 1 st.rsc
    ⟨st.net.calls + 1, st.net.trace ++ [.get ⟨.userProjects creative.Username, 1, apiKey⟩ true]⟩
  rw [hf₂]
  simp only []
  refine ⟨ok₂, ?_⟩
  cases hb : buildData rsc with
  | error cause => exact ⟨[], by simp [eventsOf]⟩
  | ok data => exact ⟨[.goFetchPhotos data.Src, .goSave data], by simp [eventsOf]⟩

theorem foldlM_extends {β : Type} (f : Vars → β → Except Crash Vars)
    (hf : ∀ st x, st.net.trace <+: eventsOf (f st x)) (xs : List β) (st : Vars) :
    st.net.trace <+: eventsOf (xs.foldlM f st) := by
  induction xs generalizing st with
  | nil => exact List.prefix_refl _
  | cons x xs ih =>
    rw [List.foldlM_cons]
    have hx := hf st x
    cases hfx : f st x with
    | error crash =>
      rw [hfx] at hx
      exact hx
    | ok st' =>
      rw [hfx] at hx
      exact hx.trans (ih st')

theorem foldlM_head_start {β : Type} (f : Vars → β → Except Crash Vars)
    (hf : ∀ st x, st.net.trace <+: eventsOf (f st x)) (x : β) (xs : List β) (st : Vars) :
    eventsOf (f st x) <+: eventsOf ((x :: xs).foldlM f st) := by
  rw [List.foldlM_cons]
  cases hfx : f st x with
  | error crash => exact List.prefix_refl _
  | ok st' => exact foldlM_extends f hf xs st'

theorem forCreative_keeps (apiKey : String) (api : Upstream) (st : Vars) (creative : Creative) :
    st.net.trace <+: eventsOf (forCreative apiKey api st creative) := by
  obtain ⟨ok, ext, h⟩ := forCreative_extends apiKey api st creative
  rw [h, List.append_assoc]
  exact List.prefix_append _ _

/-- The events of one turn of the outer loop start with the events before it and the request
of the page of the creator list. -/
theorem forPage_extends (apiKey : String) (api : Upstream) (st : Vars) (i : Nat) :
    ∃ ok ext, eventsOf (forPage apiKey api st i)
      = st.net.trace ++ [.get ⟨.creativesToFollow, 1 + (i : Int), apiKey⟩ ok] ++ ext := by
  obtain ⟨e, urList, ok, hf, -⟩ :=
    fetch_cases apiKey api .creativesToFollow (1 + (i : Int)) st.urList st.net
  refine ⟨ok, ?_⟩
  unfold forPage
  rw [hf]
  simp only []
  obtain ⟨ext, hext⟩ := foldlM_extends _ (forCreative_keeps apiKey api) urList.Creatives
    ⟨urList, st.projList, st.rsc, ⟨st.net.calls + 1,
      st.net.trace ++ [.get ⟨.creativesToFollow, 1 + (i : Int), apiKey⟩ ok]⟩⟩
  exact ⟨ext, hext.symm⟩

theorem forPage_keeps (apiKey : String) (api : Upstream) (st : Vars) (i : Nat) :
    st.net.trace <+: eventsOf (forPage apiKey api st i) := by
  obtain ⟨ok, ext, h⟩ := forPage_extends apiKey api st i
  rw [h, List.append_assoc]
  exact List.prefix_append _ _

theorem expectedForCreators_cons (apiKey : String) (api : Upstream) (n : Nat) (c : Creative)
    (cs : List Creative) :
    expectedForCreators apiKey api n (c :: cs)
      = expectedForCreators apiKey api n [c] ++ expectedForCreators apiKey api (n + 2) cs := by
  simp [expectedForCreators]

theorem requestsOf_forCreators_length (apiKey : String) (api : Upstream) (n : Nat)
    (cs : List Creative) :
    (requestsOf (expectedForCreators apiKey api n cs)).length = 2 * cs.length := by
  induction cs generalizing n with
  | nil => rfl
  | cons c cs ih =>
    rw [expectedForCreators_cons, requestsOf_append, List.length_append, ih]
    simp [expectedForCreators, requestsOf]
    omega

/-- One turn of the inner loop in a run whose requests all get complete responses: the turn
returns, with two more requests on record and the events of the specification for its
creator. -/
theorem forCreative_carried (apiKey : String) (api : Upstream) (T : List Event)
    (hT : ∀ (n : Nat) (req : Request), (requestsOf T)[n]? = some req →
      Carries (api n req) req.url)
    (st : Vars) (hsync : st.net.calls = (requestsOf st.net.trace).length) (creative : Creative)
    (hpre : eventsOf (forCreative apiKey api st creative) <+: T) :
    ∃ projList rsc, forCreative apiKey api st creative
      = .ok ⟨st.urList, projList, rsc, ⟨st.net.calls + 2,
          st.net.trace ++ expectedForCreators apiKey api st.net.calls [creative]⟩⟩ := by
  obtain ⟨ok₁, ext₁, hext₁⟩ := forCreative_extends apiKey api st creative
  have hreq₁ := requestsOf_next st.net.trace ext₁ T _ ok₁ (hext₁ ▸ hpre)
  rw [← hsync] at hreq₁
  obtain ⟨b₁, hb₁, hconst, hne⟩ := hT _ _ hreq₁
  have hf₁ := fetch_body apiKey api (.userProjects creative.Username) 1 st.projList st.net b₁ hb₁
  obtain ⟨first, rest, hproj⟩ := List.exists_cons_of_ne_nil hne
  have hdec₁ : (Dest.Decode b₁ st.projList : UserProjectsSlice) = b₁.projects ⟨[]⟩ :=
    hconst st.projList
  have hid : firstProjectID (api st.net.calls ⟨.userProjects creative.Username, 1, apiKey⟩)
      = first.ID := by
    simp only [hb₁, firstProjectID, hproj]
  obtain ⟨ok₂, ext₂, hext₂⟩ := forCreative_extends_detail apiKey api st creative b₁ first rest
    hb₁ (by rw [hconst st.projList]; exact hproj)
  have hreq₂ := requestsOf_next _ ext₂ T _ ok₂ (hext₂ ▸ hpre)
  have hlen : (requestsOf (st.net.trace
      ++ [.get ⟨.userProjects creative.Username, 1, apiKey⟩ true])).length
      = st.net.calls + 1 := by
    rw [requestsOf_append, List.length_append, ← hsync]
    rfl
  rw [hlen] at hreq₂
  obtain ⟨b₂, s, hb₂, hdetail⟩ := hT _ _ hreq₂
  have hf₂ := fetch_body apiKey api (.project first.ID) 1 st.rsc
    ⟨st.net.calls + 1, st.net.trace ++ [.get ⟨.userProjects creative.Username, 1, apiKey⟩ true]⟩
    b₂ hb₂
  obtain ⟨hTitle, hDescription, hS⟩ := hdetail st.rsc
  have hS₀ := (hdetail ⟨⟨"", "", []⟩⟩).2.2
  have hbuild : buildData (Dest.Decode b₂ st.rsc : Project)
      = .ok ⟨0, (b₂.project ⟨⟨"", "", []⟩⟩).Project.Title,
          (b₂.project ⟨⟨"", "", []⟩⟩).Project.Description, filenameOf s, s⟩ := by
    show buildData (b₂.project st.rsc) = _
    simp only [buildData, hS, assertString, getFilename_filenameOf, hTitle, hDescription]
  refine ⟨b₁.projects ⟨[]⟩, b₂.project st.rsc, ?_⟩
  unfold forCreative
  rw [hf₁]
  simp only [hdec₁, hproj, List.getElem?_cons_zero]
  rw [hf₂]
  simp only [hbuild]
  simp only [expectedForCreators, hid, hb₂, carriedDetail, originalOf, hS₀, List.append_nil,
    List.append_assoc, List.singleton_append, List.cons_append, List.nil_append]
  rfl

theorem foldlM_forCreative_carried (apiKey : String) (api : Upstream) (T : List Event)
    (hT : ∀ (n : Nat) (req : Request), (requestsOf T)[n]? = some req →
      Carries (api n req) req.url)
    (cs : List Creative) (st : Vars) (hsync : st.net.calls = (requestsOf st.net.trace).length)
    (hpre : eventsOf (cs.foldlM (forCreative apiKey api) st) <+: T) :
    ∃ st', cs.foldlM (forCreative apiKey api) st = .ok st' ∧
      st'.net = ⟨st.net.calls + 2 * cs.length,
        st.net.trace ++ expectedForCreators apiKey api st.net.calls cs⟩ := by
  induction cs generalizing st with
  | nil => exact ⟨st, rfl, by simp [expectedForCreators]⟩
  | cons c cs ih =>
    obtain ⟨projList, rsc, hstep⟩ := forCreative_carried apiKey api T hT st hsync c
      ((foldlM_head_start _ (forCreative_keeps apiKey api) c cs st).trans hpre)
    rw [List.foldlM_cons, hstep] at hpre
    obtain ⟨st', hrest, hnet⟩ := ih ⟨st.urList, projList, rsc, ⟨st.net.calls + 2,
      st.net.trace ++ expectedForCreators apiKey api st.net.calls [c]⟩⟩
      (by
        show st.net.calls + 2 = (requestsOf (st.net.trace
          ++ expectedForCreators apiKey api st.net.calls [c])).length
        rw [requestsOf_append, List.length_append, requestsOf_forCreators_length, ← hsync]
        rfl)
      hpre
    refine ⟨st', ?_, ?_⟩
    · rw [List.foldlM_cons, hstep]
      exact hrest
    · rw [hnet, expectedForCreators_cons apiKey api st.net.calls c cs]
      simp only [List.length_cons, List.append_assoc, Net.mk.injEq, and_true]
      show st.net.calls + 2 + 2 * cs.length = st.net.calls + 2 * (cs.length + 1)
      omega

theorem forPage_carried (apiKey : String) (api : Upstream) (T : List Event)
    (hT : ∀ (n : Nat) (req : Request), (requestsOf T)[n]? = some req →
      Carries (api n req) req.url)
    (st : Vars) (hsync : st.net.calls = (requestsOf st.net.trace).length) (i : Nat)
    (hpre : eventsOf (forPage apiKey api st i) <+: T) :
    ∃ st', forPage apiKey api st i = .ok st' ∧
      st'.net = ⟨st.net.calls + 1 + 2 * (listedCreators
          (api st.net.calls ⟨.creativesToFollow, 1 + (i : Int), apiKey⟩)).length,
        st.net.trace ++ .get ⟨.creativesToFollow, 1 + (i : Int), apiKey⟩ true ::
          expectedForCreators apiKey api (st.net.calls + 1) (listedCreators
            (api st.net.calls ⟨.creativesToFollow, 1 + (i : Int), apiKey⟩))⟩ := by
  obtain ⟨ok, ext, hext⟩ := forPage_extends apiKey api st i
  have hreq := requestsOf_next st.net.trace ext T _ ok (hext ▸ hpre)
  rw [← hsync] at hreq
  obtain ⟨b, hb, hconst⟩ := hT _ _ hreq
  have hf := fetch_body apiKey api .creativesToFollow (1 + (i : Int)) st.urList st.net b hb
  have hdec : (Dest.Decode b st.urList : CreativesSlice) = b.creatives ⟨[]⟩ := hconst st.urList
  have hrun : forPage apiKey api st i
      = (b.creatives ⟨[]⟩).Creatives.foldlM (forCreative apiKey api)
          ⟨b.creatives ⟨[]⟩, st.projList, st.rsc, ⟨st.net.calls + 1,
            st.net.trace ++ [.get ⟨.creativesToFollow, 1 + (i : Int), apiKey⟩ true]⟩⟩ := by
    unfold forPage
    rw [hf]
    simp only [hdec]
  rw [hrun] at hpre
  obtain ⟨st', hfold, hnet⟩ := foldlM_forCreative_carried apiKey api T hT
    (b.creatives ⟨[]⟩).Creatives _
    (by
      show st.net.calls + 1 = (requestsOf (st.net.trace
        ++ [.get ⟨.creativesToFollow, 1 + (i : Int), apiKey⟩ true])).length
      rw [requestsOf_append, List.length_append, ← hsync]
      rfl)
    hpre
  refine ⟨st', by rw [hrun]; exact hfold, ?_⟩
  rw [hnet]
  simp only [hb, listedCreators, List.append_assoc, List.singleton_append]

theorem requestsOf_forPage_length (apiKey : String) (api : Upstream) (n : Nat) (page : Int) :
    (requestsOf (.get ⟨.creativesToFollow, page, apiKey⟩ true ::
      expectedForCreators apiKey api (n + 1)
        (listedCreators (api n ⟨.creativesToFollow, page, apiKey⟩)))).length
      = 1 + 2 * (listedCreators (api n ⟨.creativesToFollow, page, apiKey⟩)).length := by
  rw [← List.singleton_append, requestsOf_append, List.length_append,
    requestsOf_forCreators_length]
  rfl

theorem foldlM_forPage_carried (apiKey : String) (api : Upstream) (T : List Event)
    (hT : ∀ (n : Nat) (req : Request), (requestsOf T)[n]? = some req →
      Carries (api n req) req.url)
    (is : List Nat) (st : Vars) (hsync : st.net.calls = (requestsOf st.net.trace).length)
    (hpre : eventsOf (is.foldlM (forPage apiKey api) st) <+: T) :
    ∃ st', is.foldlM (forPage apiKey api) st = .ok st' ∧
      st'.net.trace = st.net.trace
        ++ expectedForPages apiKey api st.net.calls (is.map (fun (i : Nat) => 1 + (i : Int))) := by
  induction is generalizing st with
  | nil => exact ⟨st, rfl, by simp [expectedForPages]⟩
  | cons i is ih =>
    obtain ⟨st₁, hstep, hnet⟩ := forPage_carried apiKey api T hT st hsync i
      ((foldlM_head_start _ (forPage_keeps apiKey api) i is st).trans hpre)
    rw [List.foldlM_cons, hstep] at hpre
    obtain ⟨st', hrest, htrace⟩ := ih st₁
      (by
        rw [hnet]
        show st.net.calls + 1 + 2 * (listedCreators
            (api st.net.calls ⟨.creativesToFollow, 1 + (i : Int), apiKey⟩)).length
          = (requestsOf (st.net.trace ++ _)).length
        rw [requestsOf_append, List.length_append, requestsOf_forPage_length, ← hsync]
        omega)
      hpre
    refine ⟨st', ?_, ?_⟩
    · rw [List.foldlM_cons, hstep]
      exact hrest
    · rw [htrace, hnet]
      simp [expectedForPages]

theorem pagesRequested_append (t u : List Event) :
    pagesRequested (t ++ u) = pagesRequested t ++ pagesRequested u := by
  simp [pagesRequested, List.filterMap_append]

theorem pagesRequested_forCreators (apiKey : String) (api : Upstream) (n : Nat)
    (cs : List Creative) : pagesRequested (expectedForCreators apiKey api n cs) = [] := by
  induction cs generalizing n with
  | nil => rfl
  | cons c cs ih =>
    rw [expectedForCreators_cons, pagesRequested_append, ih]
    simp [expectedForCreators, pagesRequested]

theorem pagesRequested_forPages (apiKey : String) (api : Upstream) (n : Nat)
    (pages : List Int) : pagesRequested (expectedForPages apiKey api n pages) = pages := by
  induction pages generalizing n with
  | nil => rfl
  | cons p ps ih =>
    simp only [expectedForPages]
    rw [← List.singleton_append, List.append_assoc, pagesRequested_append, pagesRequested_append,
      pagesRequested_forCreators, ih]
    simp [pagesRequested]

theorem worded_missingName : Worded missingNameUpstream := by
  refine ⟨?_, ?_, ?_⟩
  · intro n req
    obtain ⟨url, page, key⟩ := req
    cases url <;> simp only [missingNameUpstream] <;> split <;> exact ⟨_, rfl⟩
  · intro n req username b hurl hb old
    obtain ⟨url, page, key⟩ := req
    simp only at hurl
    subst hurl
    simp only [missingNameUpstream] at hb
    split at hb <;> cases hb <;> simp [projectsBody]
  · intro n req id b hurl hb old
    obtain ⟨url, page, key⟩ := req
    simp only at hurl
    subst hurl
    simp only [missingNameUpstream] at hb
    split at hb <;> cases hb <;> exact ⟨_, rfl⟩

/-- C6 (as worded, refuted).  In `missingNameUpstream` every fetch succeeds and decodes, every
creator has a project and every project detail carries a string `covers.original`; the detail of
the first project of `bob` has no name.  Yet the record that `fetchData` saves for `bob` has the
title `Poster`, which is the name of the project of `alice`, the creator before: the run is not
the one that the specification describes. -/
theorem fetchData_stale_title :
    Worded missingNameUpstream ∧
    (carriedDetail (missingNameUpstream 4 ⟨.project 12, 1, "KEY"⟩)).Project.Title = "" ∧
    eventsOf (fetchData "KEY" missingNameUpstream)
      = [.get ⟨.creativesToFollow, 1, "KEY"⟩ true,
         .get ⟨.userProjects "alice", 1, "KEY"⟩ true,
         .get ⟨.project 11, 1, "KEY"⟩ true,
         .goFetchPhotos "https://host/img/p.png",
         .goSave ⟨0, "Poster", "A poster", "p.png", "https://host/img/p.png"⟩,
         .get ⟨.userProjects "bob", 1, "KEY"⟩ true,
         .get ⟨.project 12, 1, "KEY"⟩ true,
         .goFetchPhotos "https://host/img/q.png",
         .goSave ⟨0, "Poster", "d2", "q.png", "https://host/img/q.png"⟩]
        ++ (List.range 9).map
            (fun (i : Nat) => Event.get ⟨.creativesToFollow, 2 + (i : Int), "KEY"⟩ true) ∧
    ¬ (∀ api : Upstream, Worded api →
        ∃ st, fetchData "KEY" api = .ok st ∧
          st.net.trace = expectedForPages "KEY" api 0 [1, 2, 3, 4, 5, 6, 7, 8, 9, 10]) := by
  refine ⟨worded_missingName, rfl, by decide, ?_⟩
  intro hall
  obtain ⟨st, hrun, htrace⟩ := hall missingNameUpstream worded_missingName
  have hevents : eventsOf (fetchData "KEY" missingNameUpstream)
      = expectedForPages "KEY" missingNameUpstream 0 [1, 2, 3, 4, 5, 6, 7, 8, 9, 10] := by
    rw [hrun]
    exact htrace
  exact absurd hevents (by decide)

/-- C6 (amended).  When every request that the run makes gets a complete response (the fetch
succeeds and its body carries what is read from its destination: the creator list, a project
list that is not empty, the name, the description and a string `covers.original` of the detail),
`fetchData` returns normally and its events are exactly those of the specification for the pages
1, 2, ..., 10 in this order: per page one request of the creator list, and per creator listed on
it, in listed order, the fetch of the creator's projects, the fetch of the detail of the first
listed project, one download of the detail's `covers.original` and one save of the record with
the detail's name and description, that URL as Src and `getFilename` of it as Filename.  The
pages of the creator list requested are 1 to 10, once each, in order. -/
theorem fetchData_carried_run (apiKey : String) (api : Upstream) (h : CarriedRun apiKey api) :
    ∃ st, fetchData apiKey api = .ok st ∧
      st.net.trace = expectedForPages apiKey api 0 [1, 2, 3, 4, 5, 6, 7, 8, 9, 10] ∧
      pagesRequested st.net.trace = [1, 2, 3, 4, 5, 6, 7, 8, 9, 10] ∧
      ∀ src : String, getFilename src = .ok (filenameOf src) := by
  obtain ⟨st, hrun, htrace⟩ := foldlM_forPage_carried apiKey api
    (eventsOf (fetchData apiKey api)) h (List.range 10) Vars.start rfl (List.prefix_refl _)
  have hpages : (List.range 10).map (fun (i : Nat) => 1 + (i : Int))
      = [1, 2, 3, 4, 5, 6, 7, 8, 9, 10] := by
    decide
  rw [hpages] at htrace
  have htrace' : st.net.trace = expectedForPages apiKey api 0 [1, 2, 3, 4, 5, 6, 7, 8, 9, 10] := by
    rw [htrace]
    rfl
  refine ⟨st, hrun, htrace', ?_, getFilename_filenameOf⟩
  rw [htrace', pagesRequested_forPages]

theorem fetchData_carried_run_witness :
    ∃ st, fetchData "KEY" healthyUpstream = .ok st ∧
      st.net.trace = expectedForPages "KEY" healthyUpstream 0 [1, 2, 3, 4, 5, 6, 7, 8, 9, 10] ∧
      pagesRequested st.net.trace = [1, 2, 3, 4, 5, 6, 7, 8, 9, 10] ∧
      ∀ src : String, getFilename src = .ok (filenameOf src) :=
  fetchData_carried_run "KEY" healthyUpstream (fun _ req _ =>
    match req with
    | ⟨.creativesToFollow, _, _⟩ => ⟨creatorsBody [⟨7, "alice"⟩], rfl, fun _ => rfl⟩
    | ⟨.userProjects _, _, _⟩ => ⟨projectsBody [⟨11⟩], rfl, fun _ => rfl, by decide⟩
    | ⟨.project _, _, _⟩ =>
      ⟨detailBody "Poster" "A poster" "https://host/img/p.png", "https://host/img/p.png", rfl,
        fun _ => ⟨rfl, rfl, rfl⟩⟩)

theorem failed_fetch_reuses_previous_record_witness :
    eventsOf (fetchData "KEY" staleUpstream)
      = [.get ⟨.creativesToFollow, 1, "KEY"⟩ true,
         .get ⟨.userProjects "alice", 1, "KEY"⟩ true,
         .get ⟨.project 11, 1, "KEY"⟩ true,
         .goFetchPhotos "https://host/img/p.png",
         .goSave sampleRecord,
         .get ⟨.userProjects "bob", 1, "KEY"⟩ true]
        ++ [.get ⟨.project 12, 1, "KEY"⟩ false]
        ++ ([.goFetchPhotos "https://host/img/p.png", .goSave sampleRecord] ++ (List.range 9).map
            (fun (i : Nat) => Event.get ⟨.creativesToFollow, 2 + (i : Int), "KEY"⟩ true)) ∧
    ∃ d₂ rest,
      [.goFetchPhotos "https://host/img/p.png", .goSave sampleRecord] ++ (List.range 9).map
          (fun (i : Nat) => Event.get ⟨.creativesToFollow, 2 + (i : Int), "KEY"⟩ true)
        = [.goFetchPhotos sampleRecord.Src, .goSave d₂] ++ rest ∧
      d₂.Title = sampleRecord.Title ∧ d₂.Description = sampleRecord.Description ∧
      d₂.Filename = sampleRecord.Filename ∧ d₂.Src = sampleRecord.Src :=
  ⟨by decide, (failed_fetch_reuses_previous_record "KEY" staleUpstream).2
    [.get ⟨.creativesToFollow, 1, "KEY"⟩ true,
     .get ⟨.userProjects "alice", 1, "KEY"⟩ true,
     .get ⟨.project 11, 1, "KEY"⟩ true,
     .goFetchPhotos "https://host/img/p.png",
     .goSave sampleRecord,
     .get ⟨.userProjects "bob", 1, "KEY"⟩ true] 12 1 "KEY"
    ([.goFetchPhotos "https://host/img/p.png", .goSave sampleRecord] ++ (List.range 9).map
      (fun (i : Nat) => Event.get ⟨.creativesToFollow, 2 + (i : Int), "KEY"⟩ true))
    sampleRecord (by decide) rfl⟩

end Gallery
